import Mathlib

/-!
Verification of the cogent-agent messaging, workflow and orchestration layer.

Shallow embedding of the relevant parts of the source:
  src/src/communication/nats_handler.py      (envelope, command dispatch, task run)
  src/src/communication/websocket_gateway.py (gateway event fan-out)
  src/src/github/workflow.py                 (workflow state machine)
  src/src/agent/orchestrator.py              (project discovery and routing)
-/

/-! ## JSON values (the wire payloads handled by `json.dumps` / `json.loads`) -/

/-- A JSON value as carried in envelope payloads: null, booleans, (integer)
numbers, strings, sequences and string-keyed objects. -/
inductive Json where
  | null
  | bool (b : Bool)
  | num (n : Int)
  | str (s : String)
  | arr (elems : List Json)
  | obj (fields : List (String × Json))

/-- Lookup of a key in a JSON object's field list (Python `obj[k]` /
`obj.get(k)` on the decoded dict). -/
def getField : List (String × Json) → String → Option Json
  | [], _ => none
  | (k, v) :: rest, key => if k = key then some v else getField rest key

/-- Python truthiness of a JSON value (`if not prompt`): null, false, 0, the
empty string, the empty list and the empty object are falsy. -/
def jsonFalsy : Json → Bool
  | .null => true
  | .bool b => !b
  | .num n => n == 0
  | .str s => s == ""
  | .arr l => l.isEmpty
  | .obj l => l.isEmpty

/-! ## MessageType and NATSMessage (src/src/communication/nats_handler.py) -/

/-- The `MessageType` enum of nats_handler.py. -/
inductive MessageType where
  | execute_task
  | cancel_task
  | get_status
  | task_started
  | task_progress
  | task_completed
  | task_failed
  | tool_use
  | agent_message
  | heartbeat
  | shutdown
deriving DecidableEq, BEq

/-- The `.value` string of each `MessageType` member. -/
def MessageType.value : MessageType → String
  | .execute_task => "execute_task"
  | .cancel_task => "cancel_task"
  | .get_status => "get_status"
  | .task_started => "task_started"
  | .task_progress => "task_progress"
  | .task_completed => "task_completed"
  | .task_failed => "task_failed"
  | .tool_use => "tool_use"
  | .agent_message => "agent_message"
  | .heartbeat => "heartbeat"
  | .shutdown => "shutdown"

/-- Every member of the enum, in declaration order. -/
def MessageType.all : List MessageType :=
  [.execute_task, .cancel_task, .get_status, .task_started, .task_progress,
   .task_completed, .task_failed, .tool_use, .agent_message, .heartbeat, .shutdown]

/-- The enum lookup `MessageType(s)`: the member whose value is `s`, if any
(a `ValueError` — decode failure — otherwise). -/
def messageTypeOfValue (s : String) : Option MessageType :=
  MessageType.all.find? (fun t => t.value == s)

/-- The `NATSMessage` dataclass: type, agent_id, payload, timestamp,
optional correlation_id. -/
structure NATSMessage where
  type : MessageType
  agent_id : String
  payload : List (String × Json)
  timestamp : String
  correlation_id : Option String

/-- `None`-or-string encoded as JSON (`null` when absent). -/
def optStrToJson : Option String → Json
  | none => .null
  | some s => .str s

/-- `NATSMessage.to_json`: the JSON object `json.dumps` serializes, with the
exact five keys of the wire shape. -/
def NATSMessage.to_json (m : NATSMessage) : Json :=
  .obj [("type", .str m.type.value),
        ("agent_id", .str m.agent_id),
        ("payload", .obj m.payload),
        ("timestamp", .str m.timestamp),
        ("correlation_id", optStrToJson m.correlation_id)]

/-- `NATSMessage.from_json`: reads `obj["type"]` (enum lookup, failure on an
unknown kind), `obj["agent_id"]`, `obj["payload"]`,
`obj.get("timestamp", "")` and `obj.get("correlation_id")`. A missing
required key is a decode error (`KeyError`). -/
def NATSMessage.from_json (j : Json) : Option NATSMessage :=
  match j with
  | .obj fields =>
    match getField fields "type" with
    | some (.str tv) =>
      match messageTypeOfValue tv with
      | some t =>
        match getField fields "agent_id" with
        | some (.str aid) =>
          match getField fields "payload" with
          | some (.obj pl) =>
            let ts := match getField fields "timestamp" with
              | some (.str s) => s
              | _ => ""
            let corr := match getField fields "correlation_id" with
              | some (.str s) => some s
              | _ => none
            some { type := t, agent_id := aid, payload := pl,
                   timestamp := ts, correlation_id := corr }
          | _ => none
        | _ => none
      | none => none
    | _ => none
  | _ => none

/-- C4. Round-trip: decoding the encoded wire form of any valid envelope
yields the envelope back — kind, sender, payload structure (nested maps,
sequences, booleans, numbers), timestamp and optional correlation id are all
preserved. -/
theorem envelope_roundtrip (m : NATSMessage) :
    NATSMessage.from_json m.to_json = some m := by
  cases m with
  | mk t aid pl ts corr => cases t <;> cases corr <;> rfl

/-! ## NATSHandler task dispatch (src/src/communication/nats_handler.py) -/

/-- The `asyncio.Task` handle tracked in `self._active_task`: all the
dispatch code observes of it is whether `.done()` holds. -/
structure TaskHandle where
  done : Bool
deriving DecidableEq

/-- The handler's task-tracking state: `self._active_task` and the
`self._task_cancelled` event flag. -/
structure HandlerState where
  activeTask : Option TaskHandle
  taskCancelled : Bool
deriving DecidableEq

/-- `self._active_task and not self._active_task.done()` — a task is
currently being processed. -/
def HandlerState.busy (st : HandlerState) : Bool :=
  match st.activeTask with
  | some h => !h.done
  | none => false

/-- An event published on the agent's events subject: its `MessageType` and
its payload object. -/
def PubEvent : Type := MessageType × List (String × Json)

/-- One message yielded by `agent.stream_task` (the `AgentMessage` of
core.py: role, content, metadata). -/
structure AgentMsgM where
  role : String
  content : String
  metadata : List (String × Json)

/-- How the message stream ends once all yielded messages are consumed:
normally, or by raising an exception. -/
inductive StreamEnd where
  | normal
  | raiseErr (e : String)

/-- Outcome value returned by the `run_task` coroutine: the cancelled
`TaskResult`, the success dict, or the failure dict. -/
inductive RunOutcome where
  | cancelledRes
  | completedRes
  | failedRes (e : String)
deriving DecidableEq

/-- Python `prompt[:200]` (and `prompt[:50]`): the first `n` characters. -/
def strTake (n : Nat) (s : String) : String :=
  (s.toList.take n).asString

/-- Whether `self._task_cancelled.is_set()` holds at loop iteration `i`:
the flag is set from iteration `cancelFrom` onward (`none` = never set). -/
def flagSet (cancelFrom : Option Nat) (i : Nat) : Bool :=
  match cancelFrom with
  | some c => decide (c ≤ i)
  | none => false

/-- The loop body of `run_task`: for each streamed message the cancellation
flag is checked first (returning the cancelled result, publishing nothing
more) and otherwise a `task_progress` event is published; when the stream is
exhausted a single `task_completed` is published, and a raised exception
publishes a single `task_failed` instead. -/
def runTaskAux (prompt : String) (cancelFrom : Option Nat) :
    Nat → List AgentMsgM → StreamEnd → List PubEvent × RunOutcome
  | _, [], .normal =>
    ([(.task_completed, [("prompt", .str (strTake 200 prompt))])], .completedRes)
  | _, [], .raiseErr e =>
    ([(.task_failed, [("error", .str e)])], .failedRes e)
  | i, msg :: rest, ending =>
    if flagSet cancelFrom i then
      ([], .cancelledRes)
    else
      let (evs, out) := runTaskAux prompt cancelFrom (i + 1) rest ending
      ((.task_progress,
        [("role", .str msg.role), ("content", .str msg.content),
         ("metadata", .obj msg.metadata)]) :: evs, out)

/-- `NATSHandler._handle_execute_task.run_task`: the events it publishes and
the value it returns, given the messages the agent streams, how the stream
ends, and from which iteration the cancellation flag is observed set. -/
def runTask (prompt : String) (msgs : List AgentMsgM) (ending : StreamEnd)
    (cancelFrom : Option Nat) : List PubEvent × RunOutcome :=
  runTaskAux prompt cancelFrom 0 msgs ending

/-- The number of terminal events (`task_completed` or `task_failed`) in a
published event list.  The `MessageType` enum has no cancelled event kind at
all. -/
def terminalEventCount (evs : List PubEvent) : Nat :=
  (evs.filter (fun e => e.1 == MessageType.task_completed
      || e.1 == MessageType.task_failed)).length

/-- `NATSHandler._handle_execute_task` up to launching `run_task`: the reply
dict, the new handler state, the events published synchronously, and whether
a background task was started (`asyncio.create_task`). -/
def handle_execute_task (st : HandlerState) (payload : List (String × Json))
    (corr : Option String) :
    List (String × Json) × HandlerState × List PubEvent × Bool :=
  let prompt := (getField payload "prompt").getD (.str "")
  if jsonFalsy prompt then
    ([("success", .bool false), ("error", .str "No prompt provided")], st, [], false)
  else if st.busy then
    ([("success", .bool false),
      ("error", .str "Agent is busy processing another task")], st, [], false)
  else
    ([("success", .bool true), ("message", .str "Task started"),
      ("correlation_id", optStrToJson corr)],
     { activeTask := some { done := false }, taskCancelled := false },
     [(.task_started,
       [("prompt", match prompt with
                   | .str s => .str (strTake 200 s)
                   | other => other)])],
     true)

/-- `NATSHandler._handle_cancel_task`: when a task is active it sets the
cancellation flag (and requests `asyncio` cancellation of the task) and
replies success; otherwise it replies failure. -/
def handle_cancel_task (st : HandlerState) :
    List (String × Json) × HandlerState :=
  if st.busy then
    ([("success", .bool true), ("message", .str "Task cancellation requested")],
     { st with taskCancelled := true })
  else
    ([("success", .bool false), ("error", .str "No active task to cancel")], st)

theorem runTaskAux_cancel_no_terminal (prompt : String) (c : Nat) :
    ∀ (msgs : List AgentMsgM) (i : Nat) (ending : StreamEnd), i ≤ c →
      c < i + msgs.length →
      terminalEventCount (runTaskAux prompt (some c) i msgs ending).1 = 0 := by
  intro msgs
  induction msgs with
  | nil =>
    intro i ending hle hlt
    simp at hlt
    omega
  | cons m rest ih =>
    intro i ending hle hlt
    by_cases hflag : c ≤ i
    · simp [runTaskAux, flagSet, hflag, terminalEventCount]
    · have hi : i + 1 ≤ c := by omega
      have hlt2 : c < (i + 1) + rest.length := by
        simp [List.length_cons] at hlt
        omega
      have := ih (i + 1) ending hi hlt2
      simp [runTaskAux, flagSet, hflag, terminalEventCount] at this ⊢
      exact ⟨by decide, this⟩

/-- C1. Counting the terminal events of a cancelled task run: once the
cancellation flag is observed set at any iteration before the stream ends
(as `_handle_cancel_task` sets it while a task is active), the task run
publishes zero `task_completed`/`task_failed` events — the cancelled branch
returns without publishing a terminating event, and no cancelled event kind
exists in the enum.  The spec requires exactly one terminal event. -/
theorem cancelled_task_publishes_no_terminal_event (st : HandlerState)
    (h : TaskHandle) (prompt : String) (msgs : List AgentMsgM)
    (ending : StreamEnd) (c : Nat)
    (hactive : st.activeTask = some h) (hrun : h.done = false)
    (hc : c < msgs.length) :
    (handle_cancel_task st).2.taskCancelled = true ∧
      terminalEventCount (runTask prompt msgs ending (some c)).1 = 0 := by
  constructor
  · simp [handle_cancel_task, HandlerState.busy, hactive, hrun]
  · exact runTaskAux_cancel_no_terminal prompt c msgs 0 ending (Nat.zero_le c)
      (by simpa using hc)

/-- C1 witness: a concrete running task with one streamed message, cancelled
before its first progress step, publishes no terminal event. -/
theorem cancelled_task_publishes_no_terminal_event_witness :
    (handle_cancel_task ⟨some ⟨false⟩, false⟩).2.taskCancelled = true ∧
      terminalEventCount (runTask "fix the bug" [⟨"assistant", "working", []⟩]
        .normal (some 0)).1 = 0 :=
  cancelled_task_publishes_no_terminal_event
    ⟨some ⟨false⟩, false⟩ ⟨false⟩ "fix the bug" [⟨"assistant", "working", []⟩]
    .normal 0 rfl rfl (by decide)

/-- C2. While a task is active (tracked and not done), `execute_task` returns
a failure reply, publishes no event, starts no second background run, and
leaves the active-task handle and cancellation flag unchanged — so at most
one non-terminal task run exists per agent. -/
theorem execute_while_busy_rejected (st : HandlerState) (h : TaskHandle)
    (payload : List (String × Json)) (corr : Option String)
    (hactive : st.activeTask = some h) (hrun : h.done = false) :
    getField (handle_execute_task st payload corr).1 "success"
        = some (.bool false) ∧
      (handle_execute_task st payload corr).2.1 = st ∧
      (handle_execute_task st payload corr).2.2.1 = [] ∧
      (handle_execute_task st payload corr).2.2.2 = false := by
  have hbusy : st.busy = true := by simp [HandlerState.busy, hactive, hrun]
  by_cases hfalsy : jsonFalsy ((getField payload "prompt").getD (.str "")) = true
  · simp [handle_execute_task, hfalsy, getField]
  · simp [handle_execute_task, hfalsy, hbusy, getField]

/-- C2 witness: a concrete busy handler rejects a well-formed execute
command without state change, events or a task launch. -/
theorem execute_while_busy_rejected_witness :
    getField (handle_execute_task
        { activeTask := some { done := false }, taskCancelled := false }
        [("prompt", .str "do something")] (some "corr-1")).1 "success"
        = some (.bool false) ∧
      (handle_execute_task
        { activeTask := some { done := false }, taskCancelled := false }
        [("prompt", .str "do something")] (some "corr-1")).2.1
        = { activeTask := some { done := false }, taskCancelled := false } ∧
      (handle_execute_task
        { activeTask := some { done := false }, taskCancelled := false }
        [("prompt", .str "do something")] (some "corr-1")).2.2.1 = [] ∧
      (handle_execute_task
        { activeTask := some { done := false }, taskCancelled := false }
        [("prompt", .str "do something")] (some "corr-1")).2.2.2 = false :=
  execute_while_busy_rejected
    { activeTask := some { done := false }, taskCancelled := false }
    { done := false } [("prompt", .str "do something")] (some "corr-1") rfl rfl

/-- C9. A missing or empty prompt makes `execute_task` return exactly the
reply dict with success false and error "No prompt provided", publishing no
event (in particular no task_started), launching no task, and leaving the
active-task handle and cancellation flag untouched. -/
theorem execute_empty_prompt_rejected (st : HandlerState)
    (payload : List (String × Json)) (corr : Option String)
    (hprompt : getField payload "prompt" = none
      ∨ getField payload "prompt" = some (.str "")) :
    handle_execute_task st payload corr
      = ([("success", .bool false), ("error", .str "No prompt provided")],
         st, [], false) := by
  have hfalsy : jsonFalsy ((getField payload "prompt").getD (.str "")) = true := by
    rcases hprompt with hp | hp <;> simp [hp, jsonFalsy]
  simp [handle_execute_task, hfalsy]

/-- C9 witness: a concrete execute command with no prompt key is rejected
with the exact structured reply and no side effects. -/
theorem execute_empty_prompt_rejected_witness :
    handle_execute_task
        { activeTask := none, taskCancelled := true }
        [("working_dir", .str "/w")] (some "corr-2")
      = ([("success", .bool false), ("error", .str "No prompt provided")],
         { activeTask := none, taskCancelled := true }, [], false) :=
  execute_empty_prompt_rejected
    { activeTask := none, taskCancelled := true }
    [("working_dir", .str "/w")] (some "corr-2") (Or.inl rfl)

/-! ## WebSocket gateway fan-out (src/src/communication/websocket_gateway.py) -/

/-- Python `subject.startswith(pattern)` on subjects represented as
character lists: `startsWithL pattern subject`. -/
def startsWithL : List Char → List Char → Bool
  | [], _ => true
  | _ :: _, [] => false
  | p :: ps, c :: cs => p == c && startsWithL ps cs

/-- Python `str.rstrip(chars)`: remove from the right every trailing
character belonging to the set. -/
def rstripL (strip : List Char) (l : List Char) : List Char :=
  (l.reverse.dropWhile (fun c => strip.contains c)).reverse

/-- The character set of the Python literal `".>.*"` passed to `rstrip`. -/
def stripSetL : List Char := ".>.*".toList

/-- `WebSocketGateway._subject_matches`:
`subject.startswith(pattern.rstrip(".>.*"))`. -/
def subjectMatchesL (pat subj : List Char) : Bool :=
  startsWithL (rstripL stripSetL pat) subj

/-- The subscription added by `_handle_subscribe` for an agent id:
`agent.{agent_id}.events`. -/
def subscribeSubjectL (agentId : List Char) : List Char :=
  "agent.".toList ++ agentId ++ ".events".toList

/-- The subject an agent's `publish_event` publishes on:
`agent.{agent_id}.events.{kind}`. -/
def eventSubjectL (agentId kind : List Char) : List Char :=
  "agent.".toList ++ agentId ++ ".events.".toList ++ kind

/-- The per-session test of `WebSocketGateway._handle_nats_event`: the event
is sent to the session iff some subscription of the session prefix-matches
the subject directly or via `_subject_matches`. -/
def sessionDelivers (subs : List (List Char)) (subj : List Char) : Bool :=
  subs.any (fun sub => startsWithL sub subj || subjectMatchesL sub subj)

theorem startsWithL_append_same (l : List Char) :
    ∀ p s : List Char, startsWithL (l ++ p) (l ++ s) = startsWithL p s := by
  induction l with
  | nil => intro p s; rfl
  | cons c rest ih => intro p s; simp [startsWithL, ih]

theorem startsWithL_dotted_distinct (u v : List Char) :
    ∀ A B : List Char, '.' ∉ A → '.' ∉ B → A ≠ B →
      startsWithL (A ++ '.' :: u) (B ++ '.' :: v) = false := by
  intro A
  induction A with
  | nil =>
    intro B hA hB hne
    cases B with
    | nil => exact absurd rfl hne
    | cons b B2 =>
      simp only [List.mem_cons, not_or] at hB
      have hb : ('.' == b) = false := by
        simp [beq_eq_false_iff_ne]
        exact hB.1
      simp [startsWithL, hb]
  | cons a A2 ih =>
    intro B hA hB hne
    simp only [List.mem_cons, not_or] at hA
    cases B with
    | nil =>
      have ha : (a == '.') = false := by
        simp [beq_eq_false_iff_ne]
        exact fun hcontra => hA.1 hcontra.symm
      simp [startsWithL, ha]
    | cons b B2 =>
      by_cases hab : a = b
      · subst hab
        have hne2 : A2 ≠ B2 := fun hcontra => hne (by rw [hcontra])
        simp only [List.mem_cons, not_or] at hB
        simp [startsWithL, ih B2 hA.2 hB.2 hne2]
      · have hb : (a == b) = false := by
          simp [beq_eq_false_iff_ne]
          exact hab
        simp [startsWithL, hb]

theorem rstripL_last_not_stripped (strip l : List Char) (c : Char)
    (hc : c ∉ strip) : rstripL strip (l ++ [c]) = l ++ [c] := by
  simp [rstripL, List.dropWhile, hc]

theorem subscribeSubjectL_rstrip (A : List Char) :
    rstripL stripSetL (subscribeSubjectL A) = subscribeSubjectL A := by
  have hshape : subscribeSubjectL A
      = ("agent.".toList ++ A ++ ".event".toList) ++ ['s'] := by
    simp [subscribeSubjectL]
  rw [hshape, rstripL_last_not_stripped]
  decide

/-- C7. Gateway isolation: a session whose subscription set holds only agent
A's event-subject prefix is never sent an event published on a distinct
agent B's event subject, for any event kind (agent ids are broker tokens and
contain no dot). -/
theorem gateway_event_isolation (A B kind : List Char)
    (hA : '.' ∉ A) (hB : '.' ∉ B) (hne : A ≠ B) :
    sessionDelivers [subscribeSubjectL A] (eventSubjectL B kind) = false := by
  have hsub : subscribeSubjectL A
      = "agent.".toList ++ (A ++ '.' :: "events".toList) := by
    simp [subscribeSubjectL]
  have hsubj : eventSubjectL B kind
      = "agent.".toList ++ (B ++ '.' :: ("events.".toList ++ kind)) := by
    simp [eventSubjectL]
  have hmain : startsWithL (subscribeSubjectL A) (eventSubjectL B kind) = false := by
    rw [hsub, hsubj, startsWithL_append_same]
    exact startsWithL_dotted_distinct _ _ A B hA hB hne
  simp [sessionDelivers, subjectMatchesL, subscribeSubjectL_rstrip, hmain]

/-- C7 witness: a session subscribed only to agent `alpha` does not receive
agent `beta`'s `task_started` event. -/
theorem gateway_event_isolation_witness :
    sessionDelivers [subscribeSubjectL "alpha".toList]
      (eventSubjectL "beta".toList "task_started".toList) = false :=
  gateway_event_isolation "alpha".toList "beta".toList "task_started".toList
    (by decide) (by decide) (by decide)

/-! ## WorkflowManager (src/src/github/workflow.py) -/

/-- The `WorkflowState` enum. -/
inductive WorkflowState where
  | idle
  | branching
  | developing
  | testing
  | committing
  | pushing
  | pr_creating
  | waiting_checks
  | merging
  | completed
  | failed
deriving DecidableEq, BEq

/-- The outcome of one awaited collaborator call: a value, or a raised
exception carrying its message. -/
inductive ExtRes (α : Type) where
  | ok (a : α)
  | exc (e : String)

/-- The `GitStatus` fields the workflow reads. -/
structure GitStatusM where
  branch : String
  isClean : Bool
  hasRemote : Bool
deriving DecidableEq

/-- The `CommitInfo` fields the workflow reads. -/
structure CommitInfoM where
  shortSha : String
  message : String
deriving DecidableEq

/-- The `TestResult` fields the workflow reads. -/
structure TestResultM where
  success : Bool
  passed : Nat
  failed : Nat
  output : String
deriving DecidableEq

/-- The `PullRequest` fields the workflow reads. -/
structure PullRequestM where
  number : Nat
  url : String
deriving DecidableEq

/-- The `RepoInfo` fields `_ensure_github_repo` reads. -/
structure RepoInfoM where
  url : String
deriving DecidableEq

/-- The `WorkflowConfig` dataclass (field names adapted). -/
structure WorkflowConfigM where
  branchPfx : String := "feature"
  defaultBaseBranch : String := "main"
  autoCommitInterval : Nat := 300
  commitMsgPfx : String := ""
  runTestsBeforePr : Bool := true
  testTimeout : Nat := 300
  autoCreatePr : Bool := true
  prDraft : Bool := false
  autoMerge : Bool := true
  deleteBranchAfterMerge : Bool := true

/-- The mutable state of a `WorkflowManager`: `_current_state`,
`_current_task_id` and whether the auto-commit background task runs. -/
structure WfMgrState where
  currentState : WorkflowState
  currentTaskId : Option String
  autoCommitOn : Bool
deriving DecidableEq

/-- The events `_emit_event` publishes, with the data each carries. -/
inductive WfEvent where
  | workflowStarted (taskId : String)
  | branchCreated (taskId branch : String)
  | testingStarted (taskId : String)
  | testingCompleted (taskId : String) (success : Bool) (passed failed : Nat)
  | commitCreated (sha msg : String)
  | pushing (taskId branch : String)
  | prCreating (taskId : String)
  | prCreated (taskId : String) (number : Nat) (url : String)
  | autoMergeEnabled (taskId : String) (number : Nat)
  | workflowCompleted (taskId : String) (prUrl : Option String)
  | workflowFailed (taskId : String) (error : String)
  | githubRepoCreated (name : String)
deriving DecidableEq

/-- The external collaborator calls `complete_task` can attempt. -/
inductive WfCall where
  | gitGetStatus
  | gitStage (files : Option (List String))
  | gitCommit (msg : String)
  | gitPush
  | gitRecentCommits (n : Nat)
  | ghCreateRepo (name : String)
  | ghCreatePr (title body : String)
  | ghMerge (number : Nat)
  | testsRun (timeout : Nat)
deriving DecidableEq

/-- The `WorkflowResult` dataclass. -/
structure WorkflowResultM where
  taskId : String
  success : Bool
  state : WorkflowState
  branch : Option String := none
  commits : List CommitInfoM := []
  testResult : Option TestResultM := none
  pullRequest : Option PullRequestM := none
  error : Option String := none
deriving DecidableEq

/-- The result built by the exception handler of `complete_task` (and the
failure path of `start_task`): only task id, failure, state and error —
the defaults for branch, commits, test result and pull request. -/
def failedResult (taskId e : String) : WorkflowResultM :=
  { taskId := taskId, success := false, state := .failed, error := some e }

/-- Python `"remote" in str(e).lower()`. -/
def isInfixL (p : List Char) : List Char → Bool
  | [] => p.isEmpty
  | c :: rest => startsWithL p (c :: rest) || isInfixL p rest

/-- The push-exception test of `complete_task`. -/
def containsRemoteL (e : String) : Bool :=
  isInfixL "remote".toList (e.toList.map Char.toLower)

/-- Python `str.replace(pat, rep)` for a non-empty pattern: replace each
non-overlapping occurrence, scanning left to right. -/
def pyReplace (pat rep : List Char) : List Char → List Char
  | [] => []
  | c :: rest =>
    if h : pat ≠ [] ∧ startsWithL pat (c :: rest) = true then
      rep ++ pyReplace pat rep (List.drop pat.length (c :: rest))
    else
      c :: pyReplace pat rep rest
termination_by l => l.length
decreasing_by
  · have hlen : 0 < pat.length := List.length_pos.mpr h.1
    simp [List.length_drop]
    omega
  · simp

/-- Python `str.title()`: the first character of each alphabetic run is
upper-cased, the rest lower-cased (tracking whether the previous character
was alphabetic). -/
def pyTitleAux : Bool → List Char → List Char
  | _, [] => []
  | prevAlpha, c :: rest =>
    (if c.isAlpha then (if prevAlpha then c.toLower else c.toUpper) else c)
      :: pyTitleAux c.isAlpha rest

/-- Python `str.title()`. -/
def pyTitle (l : List Char) : List Char := pyTitleAux false l

/-- The generated PR title of `complete_task`:
`[{task_id}] {branch.replace(prefix + "/", "").replace("-", " ").title()}`. -/
def genPrTitle (pfx taskId branch : String) : String :=
  "[" ++ taskId ++ "] " ++
    (pyTitle (pyReplace "-".toList " ".toList
      (pyReplace (pfx ++ "/").toList [] branch.toList))).asString

/-- The generated PR body of `complete_task`: summary, the recent commit
messages except the final-changes one, and the test outcome line. -/
def genPrBody (recent : List CommitInfoM) (testRes : Option TestResultM) : String :=
  let commitList := String.intercalate "\n"
    ((recent.filter (fun c => c.message ≠ "Final changes before PR")).map
      (fun c => "- " ++ c.message))
  "## Summary\n\nThis PR was automatically created by Cogent Agent.\n\n## Changes\n\n"
    ++ commitList ++ "\n\n## Test Results\n\n"
    ++ (if (match testRes with | some tr => tr.success | none => false) then
          "✅ All tests passed"
        else "⚠️ Tests not run or failed")
    ++ "\n\n---\n🤖 Generated by Cogent Agent\n"

/-- The regex step `re.sub(r"\s+", "-", slug)`: each maximal whitespace run
becomes a single dash (the flag records whether the previous kept character
was part of a whitespace run). -/
def wsToDash : Bool → List Char → List Char
  | _, [] => []
  | prevWs, c :: rest =>
    if c.isWhitespace then
      (if prevWs then wsToDash true rest else '-' :: wsToDash true rest)
    else c :: wsToDash false rest

/-- Python `str.strip("-")`. -/
def stripDashes (l : List Char) : List Char :=
  ((l.dropWhile (fun c => c == '-')).reverse.dropWhile (fun c => c == '-')).reverse

/-- `WorkflowManager._generate_branch_name`: lower-case, keep word
characters, whitespace and dashes, collapse whitespace runs to dashes, cut
to 30 characters, strip dashes, and prepend `prefix/taskId-`. -/
def generateBranchName (pfx desc taskId : String) : String :=
  let lower := desc.toList.map Char.toLower
  let filtered := lower.filter
    (fun c => c.isAlphanum || c == '_' || c.isWhitespace || c == '-')
  let slug := stripDashes ((wsToDash false filtered).take 30)
  pfx ++ "/" ++ taskId ++ "-" ++ slug.asString

/-- The collaborator outcomes one `commit_changes` call consumes:
`git.stage_files` and `git.commit`. -/
structure CommitEnv where
  stage : ExtRes Unit
  commit : ExtRes (Option CommitInfoM)

/-- `WorkflowManager.commit_changes`: sets state committing, prefixes the
message if configured, stages and commits (exceptions propagate to the
caller), emits commit_created when a commit was made, and returns to state
developing.  Returns the new manager state, the states assigned in order,
the events emitted, the git calls made, and the propagated outcome. -/
def commit_changes (cfg : WorkflowConfigM) (st : WfMgrState) (message : String)
    (files : Option (List String)) (env : CommitEnv) :
    WfMgrState × List WorkflowState × List WfEvent × List WfCall
      × ExtRes (Option CommitInfoM) :=
  let st1 := { st with currentState := WorkflowState.committing }
  let msg := if cfg.commitMsgPfx ≠ "" then cfg.commitMsgPfx ++ " " ++ message
             else message
  match env.stage with
  | .exc e => (st1, [.committing], [], [.gitStage files], .exc e)
  | .ok _ =>
    match env.commit with
    | .exc e => (st1, [.committing], [], [.gitStage files, .gitCommit msg], .exc e)
    | .ok c =>
      let evs := match c with
        | some ci => [WfEvent.commitCreated ci.shortSha ci.message]
        | none => []
      ({ st1 with currentState := WorkflowState.developing },
       [.committing, .developing], evs, [.gitStage files, .gitCommit msg], .ok c)

/-- The collaborator outcomes one `complete_task` call can consume. -/
structure CompleteEnv where
  getStatus : ExtRes GitStatusM
  tests : ExtRes TestResultM
  stageFinal : ExtRes Unit
  commitFinal : ExtRes (Option CommitInfoM)
  push : ExtRes Unit
  createRepo : ExtRes Unit
  recentCommits : ExtRes (List CommitInfoM)
  createPr : ExtRes PullRequestM
  merge : ExtRes Unit

/-- The tail of `complete_task` from `create_pull_request` on (after the
pr_creating state and event), given the accumulated trace, events and
calls: PR creation, optional auto-merge, and the final completed state. -/
def createPrFinish (cfg : WorkflowConfigM) (st4 : WfMgrState)
    (taskId branch : String) (testRes : Option TestResultM)
    (env : CompleteEnv) (ctr : List WorkflowState) (evs : List WfEvent)
    (calls : List WfCall) (commits : List CommitInfoM) (title body : String) :
    WfMgrState × List WorkflowState × List WfEvent × List WfCall
      × WorkflowResultM :=
  match env.createPr with
  | .exc e =>
    ({ st4 with currentState := .failed }, ctr ++ [.failed],
     evs ++ [.workflowFailed taskId e], calls ++ [.ghCreatePr title body],
     failedResult taskId e)
  | .ok pr =>
    let evs2 := evs ++ [WfEvent.prCreated taskId pr.number pr.url]
    if cfg.autoMerge then
      let st5 := { st4 with currentState := WorkflowState.waiting_checks }
      match env.merge with
      | .exc e =>
        ({ st5 with currentState := .failed }, ctr ++ [.waiting_checks, .failed],
         evs2 ++ [.workflowFailed taskId e],
         calls ++ [.ghCreatePr title body, .ghMerge pr.number], failedResult taskId e)
      | .ok _ =>
        ({ st5 with currentState := .completed, currentTaskId := none },
         ctr ++ [.waiting_checks, .completed],
         evs2 ++ [.autoMergeEnabled taskId pr.number,
                  .workflowCompleted taskId (some pr.url)],
         calls ++ [.ghCreatePr title body, .ghMerge pr.number],
         { taskId := taskId, success := true, state := .completed,
           branch := some branch, commits := commits, testResult := testRes,
           pullRequest := some pr, error := none })
    else
      ({ st4 with currentState := .completed, currentTaskId := none },
       ctr ++ [.completed],
       evs2 ++ [.workflowCompleted taskId (some pr.url)],
       calls ++ [.ghCreatePr title body],
       { taskId := taskId, success := true, state := .completed,
         branch := some branch, commits := commits, testResult := testRes,
         pullRequest := some pr, error := none })

/-- The tail of `complete_task` after the push step: PR creation when
configured (with generated title and body when none given), else straight
to completed. -/
def completePrPhase (cfg : WorkflowConfigM) (st3 : WfMgrState)
    (taskId branch : String) (testRes : Option TestResultM)
    (prTitle prBody : Option String) (env : CompleteEnv)
    (ctr : List WorkflowState) (evs : List WfEvent) (calls : List WfCall)
    (commits : List CommitInfoM) :
    WfMgrState × List WorkflowState × List WfEvent × List WfCall
      × WorkflowResultM :=
  if cfg.autoCreatePr then
    let st4 := { st3 with currentState := WorkflowState.pr_creating }
    let ctr2 := ctr ++ [WorkflowState.pr_creating]
    let evs2 := evs ++ [WfEvent.prCreating taskId]
    let title := match prTitle with
      | some t => t
      | none => genPrTitle cfg.branchPfx taskId branch
    match prBody with
    | some b =>
      createPrFinish cfg st4 taskId branch testRes env ctr2 evs2 calls
        commits title b
    | none =>
      match env.recentCommits with
      | .exc e =>
        ({ st4 with currentState := .failed }, ctr2 ++ [.failed],
         evs2 ++ [.workflowFailed taskId e], calls ++ [.gitRecentCommits 10],
         failedResult taskId e)
      | .ok cs =>
        createPrFinish cfg st4 taskId branch testRes env ctr2 evs2
          (calls ++ [.gitRecentCommits 10]) commits title
          (genPrBody cs testRes)
  else
    ({ st3 with currentState := .completed, currentTaskId := none },
     ctr ++ [.completed], evs ++ [.workflowCompleted taskId none], calls,
     { taskId := taskId, success := true, state := .completed,
       branch := some branch, commits := commits, testResult := testRes,
       pullRequest := none, error := none })

/-- `complete_task` from the final `commit_changes` call on: commit, push
(a push exception whose message mentions "remote" triggers repo creation
and any other push exception is swallowed by the bare handler), then the PR
phase. -/
def completeFromCommit (cfg : WorkflowConfigM) (st1 : WfMgrState)
    (taskId branch : String) (testRes : Option TestResultM)
    (prTitle prBody : Option String) (projectName : String)
    (env : CompleteEnv) (ctrPre : List WorkflowState) (evsPre : List WfEvent)
    (callsPre : List WfCall) :
    WfMgrState × List WorkflowState × List WfEvent × List WfCall
      × WorkflowResultM :=
  match commit_changes cfg st1 "Final changes before PR" none
      { stage := env.stageFinal, commit := env.commitFinal } with
  | (st2, ctr, cev, ccalls, .exc e) =>
    ({ st2 with currentState := .failed }, ctrPre ++ ctr ++ [.failed],
     evsPre ++ cev ++ [.workflowFailed taskId e], callsPre ++ ccalls,
     failedResult taskId e)
  | (st2, ctr, cev, ccalls, .ok fc) =>
    let commits := match fc with
      | some ci => [ci]
      | none => []
    let st3 := { st2 with currentState := WorkflowState.pushing }
    let ctr3 := ctrPre ++ ctr ++ [WorkflowState.pushing]
    let evs3 := evsPre ++ cev ++ [WfEvent.pushing taskId branch]
    let calls3 := callsPre ++ ccalls ++ [WfCall.gitPush]
    match env.push with
    | .ok _ =>
      completePrPhase cfg st3 taskId branch testRes prTitle prBody env
        ctr3 evs3 calls3 commits
    | .exc e =>
      if containsRemoteL e then
        match env.createRepo with
        | .exc e2 =>
          ({ st3 with currentState := .failed }, ctr3 ++ [.failed],
           evs3 ++ [.workflowFailed taskId e2],
           calls3 ++ [.ghCreateRepo projectName], failedResult taskId e2)
        | .ok _ =>
          completePrPhase cfg st3 taskId branch testRes prTitle prBody env
            ctr3 evs3 (calls3 ++ [.ghCreateRepo projectName]) commits
      else
        completePrPhase cfg st3 taskId branch testRes prTitle prBody env
          ctr3 evs3 calls3 commits

/-- `WorkflowManager.complete_task`: stop auto-commit, read the branch, run
the configured tests (a reported failure short-circuits to failed with the
test outcome attached and the failure count in the error), make the final
commit, push, create the PR, optionally enable auto-merge, and finish in
completed — any raised exception is caught, moves the state to failed,
emits workflow_failed with the error and yields the default-failure result.
Returns the manager state, the states assigned in order, the events, the
external calls attempted, and the `WorkflowResult`. -/
def complete_task (cfg : WorkflowConfigM) (st : WfMgrState)
    (prTitle prBody : Option String) (projectName : String)
    (env : CompleteEnv) :
    WfMgrState × List WorkflowState × List WfEvent × List WfCall
      × WorkflowResultM :=
  let taskId := st.currentTaskId.getD "unknown"
  let st0 := { st with autoCommitOn := false }
  match env.getStatus with
  | .exc e =>
    ({ st0 with currentState := .failed }, [.failed],
     [.workflowFailed taskId e], [.gitGetStatus], failedResult taskId e)
  | .ok gstatus =>
    let branch := gstatus.branch
    if cfg.runTestsBeforePr then
      let st1 := { st0 with currentState := WorkflowState.testing }
      match env.tests with
      | .exc e =>
        ({ st1 with currentState := .failed }, [.testing, .failed],
         [.testingStarted taskId, .workflowFailed taskId e],
         [.gitGetStatus, .testsRun cfg.testTimeout], failedResult taskId e)
      | .ok tr =>
        if !tr.success then
          ({ st1 with currentState := .failed }, [.testing, .failed],
           [.testingStarted taskId,
            .testingCompleted taskId tr.success tr.passed tr.failed],
           [.gitGetStatus, .testsRun cfg.testTimeout],
           { taskId := taskId, success := false, state := .failed,
             branch := some branch, commits := [], testResult := some tr,
             pullRequest := none,
             error := some ("Tests failed: " ++ toString tr.failed ++ " failures") })
        else
          completeFromCommit cfg st1 taskId branch (some tr) prTitle prBody
            projectName env [.testing]
            [.testingStarted taskId,
             .testingCompleted taskId tr.success tr.passed tr.failed]
            [.gitGetStatus, .testsRun cfg.testTimeout]
    else
      completeFromCommit cfg st0 taskId branch none prTitle prBody
        projectName env [] [] [.gitGetStatus]

/-- The collaborator outcomes `_ensure_github_repo` can consume. -/
structure EnsureEnv where
  status2 : ExtRes GitStatusM
  repoInfo : ExtRes (Option RepoInfoM)
  addRemote : ExtRes Unit
  status3 : ExtRes GitStatusM
  recent1 : ExtRes (List CommitInfoM)
  stage : ExtRes Unit
  commitInit : ExtRes (Option CommitInfoM)
  createRepo : ExtRes Unit

/-- `WorkflowManager._ensure_github_repo`: returns early when a remote is
configured; otherwise adds a remote for an existing GitHub repo, or makes an
initial commit if needed, creates the repository and emits
github_repo_created.  `_has_commits` treats a raised `get_recent_commits`
as "no commits".  Returns the emitted events and the propagated outcome. -/
def ensure_github_repo (projectName : String) (env : EnsureEnv) :
    List WfEvent × ExtRes Unit :=
  match env.status2 with
  | .exc e => ([], .exc e)
  | .ok st2 =>
    if st2.hasRemote then ([], .ok ())
    else
      match env.repoInfo with
      | .exc e => ([], .exc e)
      | .ok (some _) =>
        match env.addRemote with
        | .exc e => ([], .exc e)
        | .ok _ => ([], .ok ())
      | .ok none =>
        match env.status3 with
        | .exc e => ([], .exc e)
        | .ok st3 =>
          let hasCommits := match env.recent1 with
            | .ok cs => !cs.isEmpty
            | .exc _ => false
          let commitStep : ExtRes Unit :=
            if !st3.isClean || !hasCommits then
              match env.stage with
              | .exc e => .exc e
              | .ok _ =>
                match env.commitInit with
                | .exc e => .exc e
                | .ok _ => .ok ()
            else .ok ()
          match commitStep with
          | .exc e => ([], .exc e)
          | .ok _ =>
            match env.createRepo with
            | .exc e => ([], .exc e)
            | .ok _ => ([WfEvent.githubRepoCreated projectName], .ok ())

/-- The collaborator outcomes one `start_task` call can consume.  The
checkout of the base branch is attempted inside `try/except: pass`, so its
outcome is swallowed whatever it is. -/
structure StartEnv where
  initRepo : ExtRes Bool
  status1 : ExtRes GitStatusM
  ensure : EnsureEnv
  checkoutBase : ExtRes Unit
  createBranch : ExtRes Unit

/-- `WorkflowManager.start_task`: records the task id, enters branching,
initializes the repo, ensures a remote when none is configured, creates the
feature branch and enters developing (starting auto-commit when the
configured interval is positive).  A raised exception moves the state to
failed and yields the default-failure result.  Returns the manager state,
the states assigned in order, the events, and the `WorkflowResult`. -/
def start_task (cfg : WorkflowConfigM) (st : WfMgrState)
    (desc taskId projectName : String) (env : StartEnv) :
    WfMgrState × List WorkflowState × List WfEvent × WorkflowResultM :=
  let stB := { st with currentTaskId := some taskId,
                       currentState := WorkflowState.branching }
  let evs0 := [WfEvent.workflowStarted taskId]
  match env.initRepo with
  | .exc e =>
    ({ stB with currentState := .failed }, [.branching, .failed], evs0,
     failedResult taskId e)
  | .ok _ =>
    match env.status1 with
    | .exc e =>
      ({ stB with currentState := .failed }, [.branching, .failed], evs0,
       failedResult taskId e)
    | .ok gs =>
      let ensureOut := if gs.hasRemote then ([], ExtRes.ok ())
                       else ensure_github_repo projectName env.ensure
      match ensureOut with
      | (ensEvs, .exc e) =>
        ({ stB with currentState := .failed }, [.branching, .failed],
         evs0 ++ ensEvs, failedResult taskId e)
      | (ensEvs, .ok _) =>
        let branchName := generateBranchName cfg.branchPfx desc taskId
        match env.createBranch with
        | .exc e =>
          ({ stB with currentState := .failed }, [.branching, .failed],
           evs0 ++ ensEvs, failedResult taskId e)
        | .ok _ =>
          let stC := { stB with currentState := WorkflowState.developing,
                                autoCommitOn := cfg.autoCommitInterval > 0 }
          (stC, [.branching, .developing],
           evs0 ++ ensEvs ++ [WfEvent.branchCreated taskId branchName],
           { taskId := taskId, success := true, state := .developing,
             branch := some branchName, commits := [], testResult := none,
             pullRequest := none, error := none })

/-- One workflow run as `ProjectAgent.execute_task` drives it: `start_task`
on the truncated prompt; on start failure the run ends; when the core agent
task fails a WIP `commit_changes` ends the run; otherwise `complete_task`
runs with the driver-supplied PR title. -/
structure RunScript where
  prompt : String
  taskId : String
  projectName : String
  startEnv : StartEnv
  coreOk : Bool
  wipCommit : CommitEnv
  completeEnv : CompleteEnv

/-- The sequence of workflow states observed over one run, starting from the
initial idle state. -/
def runWorkflowTrace (cfg : WorkflowConfigM) (s : RunScript) :
    List WorkflowState :=
  let st0 : WfMgrState := { currentState := .idle, currentTaskId := none,
                            autoCommitOn := false }
  let (st1, tr1, _, r1) := start_task cfg st0 (strTake 50 s.prompt) s.taskId
    s.projectName s.startEnv
  if r1.success then
    if s.coreOk then
      let (_, tr2, _, _, _) := complete_task cfg st1
        (some ("[" ++ s.taskId ++ "] " ++ strTake 50 s.prompt)) none
        s.projectName s.completeEnv
      .idle :: tr1 ++ tr2
    else
      let (_, tr2, _, _, _) := commit_changes cfg st1
        ("WIP: " ++ strTake 50 s.prompt ++ " (task failed)") none s.wipCommit
      .idle :: tr1 ++ tr2
  else
    .idle :: tr1

/-- The forward chain of the spec's monotonicity property. -/
def wfChain : List WorkflowState :=
  [.idle, .branching, .developing, .testing, .committing, .pushing,
   .pr_creating, .waiting_checks, .merging, .completed]

/-- The non-terminal part of the chain (everything before completed). -/
def wfChainNonTerminal : List WorkflowState :=
  [.idle, .branching, .developing, .testing, .committing, .pushing,
   .pr_creating, .waiting_checks, .merging]

/-- Erase each committing-developing bounce a commit step leaves in a
trace. -/
def dropCommitCycles : List WorkflowState → List WorkflowState
  | .committing :: .developing :: rest => dropCommitCycles rest
  | s :: rest => s :: dropCommitCycles rest
  | [] => []

/-- No state strictly before the end of the trace is terminal. -/
def noMidTerminal (tr : List WorkflowState) : Bool :=
  tr.dropLast.all (fun s => !(s == WorkflowState.failed
    || s == WorkflowState.completed))

/-- The amended monotonicity property of one observed trace: after erasing
the committing-developing bounces of commit steps, the trace is a
subsequence of the forward chain, or a subsequence of its non-terminal part
followed by the short-circuit to failed; and failed/completed appear only
as the final state. -/
def admissibleTrace (tr : List WorkflowState) : Bool :=
  (let d := dropCommitCycles tr
   d.isSublist wfChain ||
    (match d.getLast? with
     | some .failed => d.dropLast.isSublist wfChainNonTerminal
     | _ => false)) &&
  noMidTerminal tr

theorem commit_changes_trace (cfg : WorkflowConfigM) (st : WfMgrState)
    (message : String) (files : Option (List String)) (env : CommitEnv) :
    (commit_changes cfg st message files env).2.1 = [.committing]
      ∨ (commit_changes cfg st message files env).2.1
        = [.committing, .developing] := by
  obtain ⟨stg, cmt⟩ := env
  cases stg <;> cases cmt <;> simp [commit_changes]

theorem createPrFinish_trace (cfg : WorkflowConfigM) (st4 : WfMgrState)
    (taskId branch : String) (testRes : Option TestResultM)
    (env : CompleteEnv) (ctr : List WorkflowState) (evs : List WfEvent)
    (calls : List WfCall) (commits : List CommitInfoM) (title body : String) :
    ∃ x, (createPrFinish cfg st4 taskId branch testRes env ctr evs calls
        commits title body).2.1 = ctr ++ x
      ∧ (x = [.failed] ∨ x = [.completed]
          ∨ x = [.waiting_checks, .failed] ∨ x = [.waiting_checks, .completed]) := by
  rcases hpr : env.createPr with pr | e
  · by_cases hm : cfg.autoMerge
    · rcases hmg : env.merge with u | e2
      · exact ⟨[.waiting_checks, .completed], by simp [createPrFinish, hpr, hm, hmg]⟩
      · exact ⟨[.waiting_checks, .failed], by simp [createPrFinish, hpr, hm, hmg]⟩
    · exact ⟨[.completed], by simp [createPrFinish, hpr, hm]⟩
  · exact ⟨[.failed], by simp [createPrFinish, hpr]⟩

theorem completePrPhase_trace (cfg : WorkflowConfigM) (st3 : WfMgrState)
    (taskId branch : String) (testRes : Option TestResultM)
    (prTitle prBody : Option String) (env : CompleteEnv)
    (ctr : List WorkflowState) (evs : List WfEvent) (calls : List WfCall)
    (commits : List CommitInfoM) :
    ∃ x, (completePrPhase cfg st3 taskId branch testRes prTitle prBody env
        ctr evs calls commits).2.1 = ctr ++ x
      ∧ (x = [.pr_creating, .failed] ∨ x = [.pr_creating, .completed]
          ∨ x = [.pr_creating, .waiting_checks, .failed]
          ∨ x = [.pr_creating, .waiting_checks, .completed]
          ∨ x = [.completed]) := by
  by_cases hcp : cfg.autoCreatePr
  · rcases hbody : prBody with _ | b
    · rcases hrc : env.recentCommits with cs | e
      · obtain ⟨x, hx, hcases⟩ := createPrFinish_trace cfg
          { st3 with currentState := WorkflowState.pr_creating } taskId branch
          testRes env (ctr ++ [WorkflowState.pr_creating])
          (evs ++ [WfEvent.prCreating taskId]) (calls ++ [.gitRecentCommits 10])
          commits (match prTitle with
            | some t => t
            | none => genPrTitle cfg.branchPfx taskId branch)
          (genPrBody cs testRes)
        refine ⟨WorkflowState.pr_creating :: x, ?_, ?_⟩
        · simp [completePrPhase, hcp, hbody, hrc, hx]
        · rcases hcases with h | h | h | h <;> simp [h]
      · exact ⟨[.pr_creating, .failed], by simp [completePrPhase, hcp, hbody, hrc]⟩
    · obtain ⟨x, hx, hcases⟩ := createPrFinish_trace cfg
        { st3 with currentState := WorkflowState.pr_creating } taskId branch
        testRes env (ctr ++ [WorkflowState.pr_creating])
        (evs ++ [WfEvent.prCreating taskId]) calls commits
        (match prTitle with
          | some t => t
          | none => genPrTitle cfg.branchPfx taskId branch) b
      refine ⟨WorkflowState.pr_creating :: x, ?_, ?_⟩
      · simp [completePrPhase, hcp, hbody, hx]
      · rcases hcases with h | h | h | h <;> simp [h]
  · exact ⟨[.completed], by simp [completePrPhase, hcp]⟩

/-- The possible state-assignment tails of `completeFromCommit`. -/
def cfcTails : List (List WorkflowState) :=
  [[.committing, .failed],
   [.committing, .developing, .pushing, .failed],
   [.committing, .developing, .pushing, .pr_creating, .failed],
   [.committing, .developing, .pushing, .pr_creating, .completed],
   [.committing, .developing, .pushing, .pr_creating, .waiting_checks, .failed],
   [.committing, .developing, .pushing, .pr_creating, .waiting_checks, .completed],
   [.committing, .developing, .pushing, .completed]]

theorem completeFromCommit_trace (cfg : WorkflowConfigM) (st1 : WfMgrState)
    (taskId branch : String) (testRes : Option TestResultM)
    (prTitle prBody : Option String) (projectName : String)
    (env : CompleteEnv) (ctrPre : List WorkflowState) (evsPre : List WfEvent)
    (callsPre : List WfCall) :
    ∃ x, (completeFromCommit cfg st1 taskId branch testRes prTitle prBody
        projectName env ctrPre evsPre callsPre).2.1 = ctrPre ++ x
      ∧ x ∈ cfcTails := by
  have phaseStep : ∀ (st3 : WfMgrState) (evs : List WfEvent)
      (calls : List WfCall) (commits : List CommitInfoM),
      ∃ x, (completePrPhase cfg st3 taskId branch testRes prTitle prBody env
          (ctrPre ++ [WorkflowState.committing, WorkflowState.developing]
            ++ [WorkflowState.pushing]) evs calls commits).2.1
        = ctrPre ++ ([WorkflowState.committing, WorkflowState.developing,
            WorkflowState.pushing] ++ x)
        ∧ ([WorkflowState.committing, WorkflowState.developing,
            WorkflowState.pushing] ++ x) ∈ cfcTails := by
    intro st3 evs calls commits
    obtain ⟨x, hx, hmem⟩ := completePrPhase_trace cfg st3 taskId branch
      testRes prTitle prBody env
      (ctrPre ++ [WorkflowState.committing, WorkflowState.developing]
        ++ [WorkflowState.pushing]) evs calls commits
    refine ⟨x, by rw [hx]; simp, ?_⟩
    simp only [cfcTails, List.mem_cons, List.mem_singleton] at hmem ⊢
    rcases hmem with h | h | h | h | h <;> simp [h]
  rcases hsf : env.stageFinal with _ | e1
  · rcases hcf : env.commitFinal with fc | e2
    · rcases hp : env.push with _ | e3
      · obtain ⟨x, hx, hmem⟩ := phaseStep _ _ _ _
        refine ⟨_, ?_, hmem⟩
        simp only [completeFromCommit, commit_changes, hsf, hcf, hp]
        exact hx
      · by_cases hrem : containsRemoteL e3
        · rcases hcr : env.createRepo with _ | e4
          · obtain ⟨x, hx, hmem⟩ := phaseStep _ _ _ _
            refine ⟨_, ?_, hmem⟩
            simp only [completeFromCommit, commit_changes, hsf, hcf, hp,
              hrem, if_true, hcr]
            exact hx
          · refine ⟨[WorkflowState.committing, WorkflowState.developing,
              WorkflowState.pushing, WorkflowState.failed], ?_, ?_⟩
            · simp [completeFromCommit, commit_changes, hsf, hcf, hp, hrem, hcr]
            · simp [cfcTails]
        · obtain ⟨x, hx, hmem⟩ := phaseStep _ _ _ _
          refine ⟨_, ?_, hmem⟩
          simp only [completeFromCommit, commit_changes, hsf, hcf, hp,
            hrem, if_false]
          exact hx
    · refine ⟨[WorkflowState.committing, WorkflowState.failed], ?_, ?_⟩
      · simp [completeFromCommit, commit_changes, hsf, hcf]
      · simp [cfcTails]
  · refine ⟨[WorkflowState.committing, WorkflowState.failed], ?_, ?_⟩
    · simp [completeFromCommit, commit_changes, hsf]
    · simp [cfcTails]

/-- The possible state-assignment sequences of `complete_task`. -/
def completeTraces : List (List WorkflowState) :=
  [[.failed],
   [.testing, .failed],
   [.committing, .failed],
   [.committing, .developing, .pushing, .failed],
   [.committing, .developing, .pushing, .pr_creating, .failed],
   [.committing, .developing, .pushing, .pr_creating, .completed],
   [.committing, .developing, .pushing, .pr_creating, .waiting_checks, .failed],
   [.committing, .developing, .pushing, .pr_creating, .waiting_checks, .completed],
   [.committing, .developing, .pushing, .completed],
   [.testing, .committing, .failed],
   [.testing, .committing, .developing, .pushing, .failed],
   [.testing, .committing, .developing, .pushing, .pr_creating, .failed],
   [.testing, .committing, .developing, .pushing, .pr_creating, .completed],
   [.testing, .committing, .developing, .pushing, .pr_creating, .waiting_checks,
    .failed],
   [.testing, .committing, .developing, .pushing, .pr_creating, .waiting_checks,
    .completed],
   [.testing, .committing, .developing, .pushing, .completed]]

theorem complete_task_trace (cfg : WorkflowConfigM) (st : WfMgrState)
    (prTitle prBody : Option String) (projectName : String)
    (env : CompleteEnv) :
    (complete_task cfg st prTitle prBody projectName env).2.1
      ∈ completeTraces := by
  rcases hgs : env.getStatus with gs | e
  · by_cases hrt : cfg.runTestsBeforePr
    · rcases hts : env.tests with tr | e2
      · by_cases hsucc : tr.success
        · obtain ⟨x, hx, hmem⟩ := completeFromCommit_trace cfg
            { st with autoCommitOn := false,
                      currentState := WorkflowState.testing }
            (st.currentTaskId.getD "unknown") gs.branch (some tr) prTitle
            prBody projectName env [WorkflowState.testing]
            [.testingStarted (st.currentTaskId.getD "unknown"),
             .testingCompleted (st.currentTaskId.getD "unknown") tr.success
               tr.passed tr.failed]
            [.gitGetStatus, .testsRun cfg.testTimeout]
          rw [hsucc] at hx
          have htr : (complete_task cfg st prTitle prBody projectName env).2.1
              = [WorkflowState.testing] ++ x := by
            simp only [complete_task, hgs, hrt, if_true, hts, hsucc,
              Bool.not_true, Bool.false_eq_true, if_false]
            exact hx
          rw [htr]
          simp only [cfcTails, List.mem_cons, List.mem_singleton,
            List.not_mem_nil, or_false] at hmem
          rcases hmem with h | h | h | h | h | h | h <;> subst h <;>
            simp [completeTraces]
        · have hns : (!tr.success) = true := by simp [hsucc]
          simp [complete_task, hgs, hrt, hts, hns, completeTraces]
      · simp [complete_task, hgs, hrt, hts, completeTraces]
    · obtain ⟨x, hx, hmem⟩ := completeFromCommit_trace cfg
        { st with autoCommitOn := false }
        (st.currentTaskId.getD "unknown") gs.branch none prTitle prBody
        projectName env [] [] [.gitGetStatus]
      have htr : (complete_task cfg st prTitle prBody projectName env).2.1
          = x := by
        simp only [complete_task, hgs, hrt, if_false]
        simpa using hx
      rw [htr]
      simp only [cfcTails, List.mem_cons, List.mem_singleton,
        List.not_mem_nil, or_false] at hmem
      rcases hmem with h | h | h | h | h | h | h <;> subst h <;>
        simp [completeTraces]
  · simp [complete_task, hgs, completeTraces]

theorem start_task_cases (cfg : WorkflowConfigM) (st : WfMgrState)
    (desc taskId projectName : String) (env : StartEnv) :
    ((start_task cfg st desc taskId projectName env).2.1
        = [.branching, .developing]
      ∧ (start_task cfg st desc taskId projectName env).2.2.2.success = true)
    ∨ ((start_task cfg st desc taskId projectName env).2.1
        = [.branching, .failed]
      ∧ (start_task cfg st desc taskId projectName env).2.2.2.success
        = false) := by
  rcases hir : env.initRepo with _ | e
  · rcases hs1 : env.status1 with gs | e
    · by_cases hrem : gs.hasRemote
      · rcases hcb : env.createBranch with _ | e
        · left
          simp [start_task, hir, hs1, hrem, hcb]
        · right
          simp [start_task, hir, hs1, hrem, hcb, failedResult]
      · rcases hens : ensure_github_repo projectName env.ensure with ⟨ensEvs, ensRes⟩
        rcases ensRes with _ | e
        · rcases hcb : env.createBranch with _ | e
          · left
            simp [start_task, hir, hs1, hrem, hens, hcb]
          · right
            simp [start_task, hir, hs1, hrem, hens, hcb, failedResult]
        · right
          simp [start_task, hir, hs1, hrem, hens, failedResult]
    · right
      simp [start_task, hir, hs1, failedResult]
  · right
    simp [start_task, hir, failedResult]

/-- C3 (amended). Every workflow run as the project agent drives it yields
an admissible state trace: after erasing the committing-developing bounces
of commit steps it is a subsequence of the forward chain (or of its
non-terminal part followed by the short-circuit to failed), and
failed/completed occur only as the final state of the run. -/
theorem workflow_run_trace_admissible (cfg : WorkflowConfigM) (s : RunScript) :
    admissibleTrace (runWorkflowTrace cfg s) = true := by
  rcases hstart : start_task cfg
      { currentState := .idle, currentTaskId := none, autoCommitOn := false }
      (strTake 50 s.prompt) s.taskId s.projectName s.startEnv
    with ⟨st1, tr1, evs1, r1⟩
  have hsc := start_task_cases cfg
    { currentState := .idle, currentTaskId := none, autoCommitOn := false }
    (strTake 50 s.prompt) s.taskId s.projectName s.startEnv
  rw [hstart] at hsc
  simp only at hsc
  rcases hsc with ⟨htr, hsucc⟩ | ⟨htr, hsucc⟩
  · by_cases hco : s.coreOk
    · have hct := complete_task_trace cfg st1
        (some ("[" ++ s.taskId ++ "] " ++ strTake 50 s.prompt)) none
        s.projectName s.completeEnv
      rcases hcomp : complete_task cfg st1
          (some ("[" ++ s.taskId ++ "] " ++ strTake 50 s.prompt)) none
          s.projectName s.completeEnv
        with ⟨st2, tr2, evs2, calls2, r2⟩
      rw [hcomp] at hct
      simp only at hct
      have hgoal : runWorkflowTrace cfg s = .idle :: tr1 ++ tr2 := by
        simp [runWorkflowTrace, hstart, hsucc, hco, hcomp]
      rw [hgoal, htr]
      simp only [completeTraces, List.mem_cons, List.mem_singleton,
        List.not_mem_nil, or_false] at hct
      rcases hct with h | h | h | h | h | h | h | h | h | h | h | h | h | h |
        h | h <;> subst h <;> decide
    · have hcc := commit_changes_trace cfg st1
        ("WIP: " ++ strTake 50 s.prompt ++ " (task failed)") none s.wipCommit
      rcases hcomm : commit_changes cfg st1
          ("WIP: " ++ strTake 50 s.prompt ++ " (task failed)") none s.wipCommit
        with ⟨st2, tr2, evs2, calls2, r2⟩
      rw [hcomm] at hcc
      simp only at hcc
      have hgoal : runWorkflowTrace cfg s = .idle :: tr1 ++ tr2 := by
        simp [runWorkflowTrace, hstart, hsucc, hco, hcomm]
      rw [hgoal, htr]
      rcases hcc with h | h <;> subst h <;> decide
  · have hgoal : runWorkflowTrace cfg s = .idle :: tr1 := by
      simp [runWorkflowTrace, hstart, hsucc]
    rw [hgoal, htr]
    decide

theorem createPrFinish_failed_event (cfg : WorkflowConfigM) (st4 : WfMgrState)
    (taskId branch : String) (testRes : Option TestResultM)
    (env : CompleteEnv) (ctr : List WorkflowState) (evs : List WfEvent)
    (calls : List WfCall) (commits : List CommitInfoM) (title body : String)
    (e : String)
    (hpre : WfEvent.workflowFailed taskId e ∉ evs)
    (hmem : WfEvent.workflowFailed taskId e
      ∈ (createPrFinish cfg st4 taskId branch testRes env ctr evs calls
          commits title body).2.2.1) :
    (createPrFinish cfg st4 taskId branch testRes env ctr evs calls commits
        title body).2.2.2.2 = failedResult taskId e
      ∧ (createPrFinish cfg st4 taskId branch testRes env ctr evs calls
          commits title body).1.currentState = WorkflowState.failed := by
  rcases hpr : env.createPr with pr | e2
  · by_cases hm : cfg.autoMerge
    · rcases hmg : env.merge with _ | e3
      · simp [createPrFinish, hpr, hm, hmg, hpre] at hmem
      · simp only [createPrFinish, hpr, hm, hmg] at hmem ⊢
        simp [hpre] at hmem
        subst hmem
        simp
    · simp [createPrFinish, hpr, hm, hpre] at hmem
  · simp only [createPrFinish, hpr] at hmem ⊢
    simp [hpre] at hmem
    subst hmem
    simp

theorem completePrPhase_failed_event (cfg : WorkflowConfigM)
    (st3 : WfMgrState) (taskId branch : String) (testRes : Option TestResultM)
    (prTitle prBody : Option String) (env : CompleteEnv)
    (ctr : List WorkflowState) (evs : List WfEvent) (calls : List WfCall)
    (commits : List CommitInfoM) (e : String)
    (hpre : WfEvent.workflowFailed taskId e ∉ evs)
    (hmem : WfEvent.workflowFailed taskId e
      ∈ (completePrPhase cfg st3 taskId branch testRes prTitle prBody env
          ctr evs calls commits).2.2.1) :
    (completePrPhase cfg st3 taskId branch testRes prTitle prBody env ctr evs
        calls commits).2.2.2.2 = failedResult taskId e
      ∧ (completePrPhase cfg st3 taskId branch testRes prTitle prBody env ctr
          evs calls commits).1.currentState = WorkflowState.failed := by
  by_cases hcp : cfg.autoCreatePr
  · rcases hbody : prBody with _ | b
    · rcases hrc : env.recentCommits with cs | e2
      · have hpre2 : WfEvent.workflowFailed taskId e
            ∉ evs ++ [WfEvent.prCreating taskId] := by simp [hpre]
        simp only [completePrPhase, hcp, if_true, hbody, hrc] at hmem ⊢
        exact createPrFinish_failed_event cfg _ taskId branch testRes env _ _
          _ commits _ _ e hpre2 hmem
      · simp only [completePrPhase, hcp, if_true, hbody, hrc] at hmem ⊢
        simp [hpre] at hmem
        subst hmem
        simp
    · have hpre2 : WfEvent.workflowFailed taskId e
          ∉ evs ++ [WfEvent.prCreating taskId] := by simp [hpre]
      simp only [completePrPhase, hcp, if_true, hbody] at hmem ⊢
      exact createPrFinish_failed_event cfg _ taskId branch testRes env _ _ _
        commits _ _ e hpre2 hmem
  · simp [completePrPhase, hcp, hpre] at hmem

theorem completeFromCommit_failed_event (cfg : WorkflowConfigM)
    (st1 : WfMgrState) (taskId branch : String)
    (testRes : Option TestResultM) (prTitle prBody : Option String)
    (projectName : String) (env : CompleteEnv) (ctrPre : List WorkflowState)
    (evsPre : List WfEvent) (callsPre : List WfCall) (e : String)
    (hpre : WfEvent.workflowFailed taskId e ∉ evsPre)
    (hmem : WfEvent.workflowFailed taskId e
      ∈ (completeFromCommit cfg st1 taskId branch testRes prTitle prBody
          projectName env ctrPre evsPre callsPre).2.2.1) :
    (completeFromCommit cfg st1 taskId branch testRes prTitle prBody
        projectName env ctrPre evsPre callsPre).2.2.2.2
      = failedResult taskId e
      ∧ (completeFromCommit cfg st1 taskId branch testRes prTitle prBody
          projectName env ctrPre evsPre callsPre).1.currentState
        = WorkflowState.failed := by
  rcases hsf : env.stageFinal with _ | e1
  · rcases hcf : env.commitFinal with fc | e2
    · rcases fc with _ | ci
      · rcases hp : env.push with _ | e3
        · have hpre2 : WfEvent.workflowFailed taskId e
              ∉ (evsPre ++ ([] : List WfEvent)) ++ [WfEvent.pushing taskId branch] := by
            simp [hpre]
          simp only [completeFromCommit, commit_changes, hsf, hcf, hp] at hmem ⊢
          exact completePrPhase_failed_event cfg _ taskId branch testRes prTitle
            prBody env _ _ _ _ e hpre2 hmem
        · by_cases hrem : containsRemoteL e3
          · rcases hcr : env.createRepo with _ | e4
            · have hpre2 : WfEvent.workflowFailed taskId e
                  ∉ (evsPre ++ ([] : List WfEvent)) ++ [WfEvent.pushing taskId branch] := by
                simp [hpre]
              simp only [completeFromCommit, commit_changes, hsf, hcf, hp, hrem,
                if_true, hcr] at hmem ⊢
              exact completePrPhase_failed_event cfg _ taskId branch testRes
                prTitle prBody env _ _ _ _ e hpre2 hmem
            · simp only [completeFromCommit, commit_changes, hsf, hcf, hp, hrem,
                if_true, hcr] at hmem ⊢
              simp [hpre] at hmem
              subst hmem
              simp
          · have hpre2 : WfEvent.workflowFailed taskId e
                ∉ (evsPre ++ ([] : List WfEvent)) ++ [WfEvent.pushing taskId branch] := by
              simp [hpre]
            simp only [completeFromCommit, commit_changes, hsf, hcf, hp, hrem,
              if_false] at hmem ⊢
            exact completePrPhase_failed_event cfg _ taskId branch testRes
              prTitle prBody env _ _ _ _ e hpre2 hmem
      · rcases hp : env.push with _ | e3
        · have hpre2 : WfEvent.workflowFailed taskId e
              ∉ (evsPre ++ [WfEvent.commitCreated ci.shortSha ci.message]) ++ [WfEvent.pushing taskId branch] := by
            simp [hpre]
          simp only [completeFromCommit, commit_changes, hsf, hcf, hp] at hmem ⊢
          exact completePrPhase_failed_event cfg _ taskId branch testRes prTitle
            prBody env _ _ _ _ e hpre2 hmem
        · by_cases hrem : containsRemoteL e3
          · rcases hcr : env.createRepo with _ | e4
            · have hpre2 : WfEvent.workflowFailed taskId e
                  ∉ (evsPre ++ [WfEvent.commitCreated ci.shortSha ci.message]) ++ [WfEvent.pushing taskId branch] := by
                simp [hpre]
              simp only [completeFromCommit, commit_changes, hsf, hcf, hp, hrem,
                if_true, hcr] at hmem ⊢
              exact completePrPhase_failed_event cfg _ taskId branch testRes
                prTitle prBody env _ _ _ _ e hpre2 hmem
            · simp only [completeFromCommit, commit_changes, hsf, hcf, hp, hrem,
                if_true, hcr] at hmem ⊢
              simp [hpre] at hmem
              subst hmem
              simp
          · have hpre2 : WfEvent.workflowFailed taskId e
                ∉ (evsPre ++ [WfEvent.commitCreated ci.shortSha ci.message]) ++ [WfEvent.pushing taskId branch] := by
              simp [hpre]
            simp only [completeFromCommit, commit_changes, hsf, hcf, hp, hrem,
              if_false] at hmem ⊢
            exact completePrPhase_failed_event cfg _ taskId branch testRes
              prTitle prBody env _ _ _ _ e hpre2 hmem
    · simp only [completeFromCommit, commit_changes, hsf, hcf] at hmem ⊢
      simp [hpre] at hmem
      subst hmem
      simp
  · simp only [completeFromCommit, commit_changes, hsf] at hmem ⊢
    simp [hpre] at hmem
    subst hmem
    simp

/-- C5 (amended). Whenever `complete_task` catches a raised step exception
(the only path that emits workflow_failed, with the error message), the call
returns — the model is a total function — with the state machine in failed
and the default-failure result: it carries the error, but branch, commits
and test outcome are left at their defaults rather than the partial state
collected before the failure. -/
theorem complete_task_exception_result (cfg : WorkflowConfigM)
    (st : WfMgrState) (prTitle prBody : Option String) (projectName : String)
    (env : CompleteEnv) (e : String)
    (hmem : WfEvent.workflowFailed (st.currentTaskId.getD "unknown") e
      ∈ (complete_task cfg st prTitle prBody projectName env).2.2.1) :
    (complete_task cfg st prTitle prBody projectName env).2.2.2.2
      = failedResult (st.currentTaskId.getD "unknown") e
      ∧ (complete_task cfg st prTitle prBody projectName env).1.currentState
        = WorkflowState.failed := by
  rcases hgs : env.getStatus with gs | e0
  · by_cases hrt : cfg.runTestsBeforePr
    · rcases hts : env.tests with tr | e2
      · by_cases hsucc : tr.success
        · simp only [complete_task, hgs, hrt, if_true, hts, hsucc,
            Bool.not_true, Bool.false_eq_true, if_false] at hmem ⊢
          exact completeFromCommit_failed_event cfg
            { st with autoCommitOn := false,
                      currentState := WorkflowState.testing }
            (st.currentTaskId.getD "unknown") gs.branch (some tr) prTitle
            prBody projectName env [WorkflowState.testing]
            [.testingStarted (st.currentTaskId.getD "unknown"),
             .testingCompleted (st.currentTaskId.getD "unknown") true
               tr.passed tr.failed]
            [.gitGetStatus, .testsRun cfg.testTimeout] e (by simp) hmem
        · have hns : (!tr.success) = true := by simp [hsucc]
          simp [complete_task, hgs, hrt, hts, hns] at hmem
      · simp only [complete_task, hgs, hrt, if_true, hts] at hmem ⊢
        simp at hmem
        subst hmem
        simp
    · simp only [complete_task, hgs, hrt, if_false] at hmem ⊢
      exact completeFromCommit_failed_event cfg { st with autoCommitOn := false }
        (st.currentTaskId.getD "unknown") gs.branch none prTitle prBody
        projectName env [] [] [.gitGetStatus] e (by simp) hmem
  · simp only [complete_task, hgs] at hmem ⊢
    simp at hmem
    subst hmem
    simp

/-- A complete-phase environment in which every step succeeds except PR
creation, which raises "boom" — used to exhibit the exception path of
`complete_task`. -/
def cexCompleteEnv : CompleteEnv :=
  { getStatus := .ok { branch := "feature/x", isClean := true, hasRemote := true },
    tests := .ok { success := true, passed := 3, failed := 0, output := "ok" },
    stageFinal := .ok (),
    commitFinal := .ok (some { shortSha := "abc1234", message := "final work" }),
    push := .ok (),
    createRepo := .ok (),
    recentCommits := .ok [],
    createPr := .exc "boom",
    merge := .ok () }

/-- C5 counterexample: with the branch "feature/x" read, the tests run
successfully and a final commit made, a PR-creation exception yields a
result holding only the error — branch is none, commits empty and test
outcome none, not the collected partial state the claim promises. -/
theorem complete_task_exception_loses_state :
    (complete_task {} ⟨WorkflowState.developing, some "t1", true⟩
        (some "title") none "proj" cexCompleteEnv).2.2.2.2
      = { taskId := "t1", success := false, state := WorkflowState.failed,
          error := some "boom" }
    ∧ cexCompleteEnv.getStatus
      = ExtRes.ok { branch := "feature/x", isClean := true, hasRemote := true }
    ∧ cexCompleteEnv.tests
      = ExtRes.ok { success := true, passed := 3, failed := 0, output := "ok" }
    ∧ cexCompleteEnv.commitFinal
      = ExtRes.ok (some { shortSha := "abc1234", message := "final work" }) :=
  ⟨by decide, rfl, rfl, rfl⟩

/-- C5 witness: the amended theorem applied to the concrete PR-creation
failure. -/
theorem complete_task_exception_result_witness :
    (complete_task {} ⟨WorkflowState.developing, some "t1", true⟩
        (some "title") none "proj" cexCompleteEnv).2.2.2.2
      = failedResult "t1" "boom"
      ∧ (complete_task {} ⟨WorkflowState.developing, some "t1", true⟩
          (some "title") none "proj" cexCompleteEnv).1.currentState
        = WorkflowState.failed :=
  complete_task_exception_result {} ⟨WorkflowState.developing, some "t1", true⟩
    (some "title") none "proj" cexCompleteEnv "boom" (by decide)

/-- C6. When tests are configured and the test step reports failure,
`complete_task` ends in state failed with the test outcome attached to the
result, the error string carries the number of failures, and the only calls
attempted are the status read and the test run — no push, repo creation, PR
creation or merge. -/
theorem complete_task_test_failure_path (cfg : WorkflowConfigM)
    (st : WfMgrState) (prTitle prBody : Option String) (projectName : String)
    (env : CompleteEnv) (gs : GitStatusM) (tr : TestResultM)
    (hrt : cfg.runTestsBeforePr = true)
    (hgs : env.getStatus = ExtRes.ok gs)
    (hts : env.tests = ExtRes.ok tr)
    (hfail : tr.success = false) :
    (complete_task cfg st prTitle prBody projectName env).2.2.2.2
      = { taskId := st.currentTaskId.getD "unknown", success := false,
          state := WorkflowState.failed, branch := some gs.branch,
          commits := [], testResult := some tr, pullRequest := none,
          error := some ("Tests failed: " ++ toString tr.failed ++ " failures") }
      ∧ (complete_task cfg st prTitle prBody projectName env).1.currentState
        = WorkflowState.failed
      ∧ (complete_task cfg st prTitle prBody projectName env).2.1
        = [.testing, .failed]
      ∧ (complete_task cfg st prTitle prBody projectName env).2.2.2.1
        = [.gitGetStatus, .testsRun cfg.testTimeout]
      ∧ WfCall.gitPush
        ∉ (complete_task cfg st prTitle prBody projectName env).2.2.2.1
      ∧ (∀ t b, WfCall.ghCreatePr t b
        ∉ (complete_task cfg st prTitle prBody projectName env).2.2.2.1)
      ∧ (∀ n, WfCall.ghMerge n
        ∉ (complete_task cfg st prTitle prBody projectName env).2.2.2.1)
      ∧ (∀ n, WfCall.ghCreateRepo n
        ∉ (complete_task cfg st prTitle prBody projectName env).2.2.2.1) := by
  have hns : (!tr.success) = true := by simp [hfail]
  simp [complete_task, hgs, hrt, hts, hns, hfail]

/-- A complete-phase environment whose test step reports two failures
(everything else would succeed) — Scenario 4 of the spec. -/
def testFailEnv : CompleteEnv :=
  { getStatus := .ok { branch := "feature/y", isClean := true, hasRemote := true },
    tests := .ok { success := false, passed := 3, failed := 2, output := "2 failed" },
    stageFinal := .ok (),
    commitFinal := .ok none,
    push := .ok (),
    createRepo := .ok (),
    recentCommits := .ok [],
    createPr := .ok { number := 1, url := "u" },
    merge := .ok () }

/-- C6 witness: a test run reporting 2 failures ends the workflow in failed
with the outcome attached, the error "Tests failed: 2 failures", and only
the status read and the test run attempted. -/
theorem complete_task_test_failure_path_witness :
    (complete_task {} ⟨WorkflowState.developing, some "t2", true⟩ none none
        "proj" testFailEnv).2.2.2.2
      = { taskId := "t2", success := false, state := WorkflowState.failed,
          branch := some "feature/y", commits := [],
          testResult := some ⟨false, 3, 2, "2 failed"⟩,
          pullRequest := none, error := some "Tests failed: 2 failures" }
      ∧ (complete_task {} ⟨WorkflowState.developing, some "t2", true⟩ none
          none "proj" testFailEnv).1.currentState = WorkflowState.failed
      ∧ (complete_task {} ⟨WorkflowState.developing, some "t2", true⟩ none
          none "proj" testFailEnv).2.1 = [.testing, .failed]
      ∧ (complete_task {} ⟨WorkflowState.developing, some "t2", true⟩ none
          none "proj" testFailEnv).2.2.2.1
        = [.gitGetStatus, .testsRun ({} : WorkflowConfigM).testTimeout]
      ∧ WfCall.gitPush ∉ (complete_task {} ⟨WorkflowState.developing,
          some "t2", true⟩ none none "proj" testFailEnv).2.2.2.1
      ∧ (∀ t b, WfCall.ghCreatePr t b ∉ (complete_task {}
          ⟨WorkflowState.developing, some "t2", true⟩ none none "proj"
          testFailEnv).2.2.2.1)
      ∧ (∀ n, WfCall.ghMerge n ∉ (complete_task {}
          ⟨WorkflowState.developing, some "t2", true⟩ none none "proj"
          testFailEnv).2.2.2.1)
      ∧ (∀ n, WfCall.ghCreateRepo n ∉ (complete_task {}
          ⟨WorkflowState.developing, some "t2", true⟩ none none "proj"
          testFailEnv).2.2.2.1) :=
  complete_task_test_failure_path {} ⟨WorkflowState.developing, some "t2", true⟩
    none none "proj" testFailEnv
    { branch := "feature/y", isClean := true, hasRemote := true }
    { success := false, passed := 3, failed := 2, output := "2 failed" }
    rfl rfl rfl rfl

/-- A fully successful run script: remote configured, core task succeeds,
tests pass, push, PR and auto-merge all succeed. -/
def allOkScript : RunScript :=
  { prompt := "add feature",
    taskId := "t1",
    projectName := "proj",
    startEnv :=
      { initRepo := .ok false,
        status1 := .ok { branch := "main", isClean := true, hasRemote := true },
        ensure :=
          { status2 := .ok { branch := "main", isClean := true, hasRemote := true },
            repoInfo := .ok none,
            addRemote := .ok (),
            status3 := .ok { branch := "main", isClean := true, hasRemote := true },
            recent1 := .ok [],
            stage := .ok (),
            commitInit := .ok none,
            createRepo := .ok () },
        checkoutBase := .ok (),
        createBranch := .ok () },
    coreOk := true,
    wipCommit := { stage := .ok (), commit := .ok none },
    completeEnv :=
      { getStatus := .ok ⟨"feature/t1-add-feature", false, true⟩,
        tests := .ok { success := true, passed := 5, failed := 0, output := "ok" },
        stageFinal := .ok (),
        commitFinal := .ok (some { shortSha := "abc1234", message := "final" }),
        push := .ok (),
        createRepo := .ok (),
        recentCommits := .ok [],
        createPr := .ok { number := 7, url := "u" },
        merge := .ok () } }

/-- C3 counterexample: a fully successful run passes through committing and
then back to developing (the final commit inside `complete_task`), so its
observed state sequence is not a subsequence of the forward chain the claim
names. -/
theorem workflow_trace_not_subsequence :
    runWorkflowTrace {} allOkScript
      = [WorkflowState.idle, .branching, .developing, .testing, .committing,
         .developing, .pushing, .pr_creating, .waiting_checks, .completed]
    ∧ List.isSublist
        [WorkflowState.idle, WorkflowState.branching, WorkflowState.developing,
         WorkflowState.testing, WorkflowState.committing,
         WorkflowState.developing, WorkflowState.pushing,
         WorkflowState.pr_creating, WorkflowState.waiting_checks,
         WorkflowState.completed] wfChain = false :=
  ⟨by decide, by decide⟩

/-! ## Orchestrator project discovery (src/src/agent/orchestrator.py) -/

/-- The `ProjectState` enum. -/
inductive ProjectState where
  | pending
  | running
  | idle
  | error
  | stopped
deriving DecidableEq

/-- One filesystem directory entry as `Path.iterdir` yields it: its name,
whether it is a directory, and its own entries. -/
inductive FsEntry where
  | mk (name : String) (isDir : Bool) (children : List FsEntry)

/-- The entry's name. -/
def FsEntry.name : FsEntry → String
  | .mk n _ _ => n

/-- Whether the entry is a directory. -/
def FsEntry.isDir : FsEntry → Bool
  | .mk _ d _ => d

/-- The entry's own entries. -/
def FsEntry.children : FsEntry → List FsEntry
  | .mk _ _ c => c

/-- Python `name.startswith(".")`: the hidden-entry test of discovery. -/
def isHiddenName (s : String) : Bool :=
  match s.data with
  | [] => false
  | c :: _ => c == '.'

/-- The `ProjectInfo` dataclass (the worker reference modelled by its
presence). -/
structure ProjectInfoV where
  projectId : String
  name : String
  workingArea : String
  path : String
  state : ProjectState
  agent : Option Unit
  currentTask : Option String
  createdAt : Nat
  lastActivity : Nat
deriving DecidableEq

/-- Every `ProjectInfo` field except the two creation-time timestamps. -/
structure ProjectCoreV where
  projectId : String
  name : String
  workingArea : String
  path : String
  state : ProjectState
  agent : Option Unit
  currentTask : Option String
deriving DecidableEq

/-- Drop the timestamps of a `ProjectInfo`. -/
def ProjectInfoV.core (p : ProjectInfoV) : ProjectCoreV :=
  ⟨p.projectId, p.name, p.workingArea, p.path, p.state, p.agent, p.currentTask⟩

/-- The `WorkingArea` dataclass. -/
structure WorkingAreaV where
  name : String
  path : String
  projects : List (String × ProjectInfoV)
deriving DecidableEq

/-- The orchestrator's two maps touched by discovery:
`self._working_areas` and `self._projects`. -/
structure DiscoveryState where
  workingAreas : List (String × WorkingAreaV)
  projects : List (String × ProjectInfoV)
deriving DecidableEq

/-- Python dict assignment `m[k] = v` on an insertion-ordered dict: replace
in place when the key exists, append otherwise. -/
def insertA {α : Type} (k : String) (v : α) :
    List (String × α) → List (String × α)
  | [] => [(k, v)]
  | (k2, v2) :: rest =>
    if k2 = k then (k, v) :: rest else (k2, v2) :: insertA k v rest

/-- Python dict lookup `m.get(k)`. -/
def lookupA {α : Type} : List (String × α) → String → Option α
  | [], _ => none
  | (k, v) :: rest, key => if k = key then some v else lookupA rest key

/-- The `ProjectInfo` record discovery creates for one project directory. -/
def mkDiscoveredInfo (now : Nat) (wsDir areaName pname : String) :
    ProjectInfoV :=
  { projectId := areaName ++ "/" ++ pname, name := pname,
    workingArea := areaName,
    path := wsDir ++ "/" ++ areaName ++ "/" ++ pname,
    state := .pending, agent := none, currentTask := none,
    createdAt := now, lastActivity := now }

/-- The inner loop of `_discover_projects` over one area's entries: each
visible project directory is bound in the fresh area's map and in
`self._projects`. -/
def scanArea (now : Nat) (wsDir areaName : String) :
    List FsEntry → WorkingAreaV × List (String × ProjectInfoV)
      → WorkingAreaV × List (String × ProjectInfoV)
  | [], acc => acc
  | pe :: rest, acc =>
    if pe.isDir && !isHiddenName pe.name then
      let info := mkDiscoveredInfo now wsDir areaName pe.name
      scanArea now wsDir areaName rest
        ({ acc.1 with projects := insertA pe.name info acc.1.projects },
         insertA (areaName ++ "/" ++ pe.name) info acc.2)
    else scanArea now wsDir areaName rest acc

/-- The outer loop of `_discover_projects` over the workspace's entries:
each visible area directory is scanned into a fresh `WorkingArea`, which
then replaces any previous binding of that area name. -/
def discoverAreas (now : Nat) (wsDir : String) :
    List FsEntry → DiscoveryState → DiscoveryState
  | [], st => st
  | ae :: rest, st =>
    if ae.isDir && !isHiddenName ae.name then
      let scanned := scanArea now wsDir ae.name ae.children
        ({ name := ae.name, path := wsDir ++ "/" ++ ae.name, projects := [] },
         st.projects)
      discoverAreas now wsDir rest
        { workingAreas := insertA ae.name scanned.1 st.workingAreas,
          projects := scanned.2 }
    else discoverAreas now wsDir rest st

/-- `OrchestratorAgent._discover_projects`: a missing workspace root is
created and left empty (the maps untouched); otherwise both maps are
populated by the two-level scan. -/
def discover_projects (now : Nat) (wsDir : String)
    (ws : Option (List FsEntry)) (st : DiscoveryState) : DiscoveryState :=
  match ws with
  | none => st
  | some entries => discoverAreas now wsDir entries st

/-- The (project id, record) pairs one area's scan inserts, in order. -/
def areaPairs (now : Nat) (wsDir areaName : String) :
    List FsEntry → List (String × ProjectInfoV)
  | [] => []
  | pe :: rest =>
    if pe.isDir && !isHiddenName pe.name then
      (areaName ++ "/" ++ pe.name, mkDiscoveredInfo now wsDir areaName pe.name)
        :: areaPairs now wsDir areaName rest
    else areaPairs now wsDir areaName rest

/-- The (project id, record) pairs one discovery run inserts, in order. -/
def discoveredPairs (now : Nat) (wsDir : String) :
    List FsEntry → List (String × ProjectInfoV)
  | [] => []
  | ae :: rest =>
    (if ae.isDir && !isHiddenName ae.name then
      areaPairs now wsDir ae.name ae.children
    else []) ++ discoveredPairs now wsDir rest

/-- Folding a pair list into a map by repeated dict assignment. -/
def foldIns {α : Type} (l : List (String × α)) (m : List (String × α)) :
    List (String × α) :=
  l.foldl (fun acc p => insertA p.1 p.2 acc) m

/-- The value of the LAST binding of a key in a pair list, if any. -/
def lookupLastA {α : Type} : List (String × α) → String → Option α
  | [], _ => none
  | (k, v) :: rest, key =>
    match lookupLastA rest key with
    | some r => some r
    | none => if k = key then some v else none

theorem scanArea_projects (now : Nat) (wsDir areaName : String) :
    ∀ (children : List FsEntry) (area : WorkingAreaV)
      (projs : List (String × ProjectInfoV)),
      (scanArea now wsDir areaName children (area, projs)).2
        = foldIns (areaPairs now wsDir areaName children) projs := by
  intro children
  induction children with
  | nil => intro area projs; rfl
  | cons pe rest ih =>
    intro area projs
    by_cases hdir : (pe.isDir && !isHiddenName pe.name) = true
    · simp [scanArea, areaPairs, hdir, foldIns, ih]
    · simp [scanArea, areaPairs, hdir, foldIns, ih]

theorem foldIns_append {α : Type} (l1 l2 : List (String × α))
    (m : List (String × α)) :
    foldIns (l1 ++ l2) m = foldIns l2 (foldIns l1 m) := by
  simp [foldIns, List.foldl_append]

theorem discoverAreas_projects (now : Nat) (wsDir : String) :
    ∀ (es : List FsEntry) (st : DiscoveryState),
      (discoverAreas now wsDir es st).projects
        = foldIns (discoveredPairs now wsDir es) st.projects := by
  intro es
  induction es with
  | nil => intro st; rfl
  | cons ae rest ih =>
    intro st
    by_cases hdir : (ae.isDir && !isHiddenName ae.name) = true
    · rcases hscan : scanArea now wsDir ae.name ae.children
        ({ name := ae.name, path := wsDir ++ "/" ++ ae.name, projects := [] },
         st.projects) with ⟨area, projs⟩
      have hpr : projs = foldIns (areaPairs now wsDir ae.name ae.children)
          st.projects := by
        have := scanArea_projects now wsDir ae.name ae.children
          { name := ae.name, path := wsDir ++ "/" ++ ae.name, projects := [] }
          st.projects
        rw [hscan] at this
        exact this
      simp only [discoverAreas, hdir, if_true, hscan, discoveredPairs,
        foldIns_append, ih]
      rw [hpr]
    · simp [discoverAreas, hdir, discoveredPairs, ih]

theorem lookupA_insertA {α : Type} (k : String) (v : α) (key : String) :
    ∀ m : List (String × α),
      lookupA (insertA k v m) key
        = if k = key then some v else lookupA m key := by
  intro m
  induction m with
  | nil => simp [insertA, lookupA]
  | cons p rest ih =>
    rcases p with ⟨k2, v2⟩
    by_cases hk : k2 = k
    · subst hk
      by_cases hkey : k2 = key <;> simp [insertA, lookupA, hkey]
    · by_cases hkey : k2 = key
      · subst hkey
        have : ¬ (k = k2) := fun hcontra => hk hcontra.symm
        simp [insertA, lookupA, hk, this]
      · simp [insertA, lookupA, hk, hkey, ih]

theorem lookupA_foldIns {α : Type} (key : String) :
    ∀ (l : List (String × α)) (m : List (String × α)),
      lookupA (foldIns l m) key
        = match lookupLastA l key with
          | some r => some r
          | none => lookupA m key := by
  intro l
  induction l with
  | nil => intro m; rfl
  | cons p rest ih =>
    intro m
    rcases p with ⟨k, v⟩
    have hstep : foldIns ((k, v) :: rest) m = foldIns rest (insertA k v m) := rfl
    rw [hstep, ih]
    rcases hlast : lookupLastA rest key with _ | r
    · simp only [lookupLastA, hlast, lookupA_insertA]
      by_cases hk : k = key <;> simp [hk]
    · simp [lookupLastA, hlast]

theorem lookupLastA_map {α β : Type} (f : α → β) (key : String) :
    ∀ l : List (String × α),
      (lookupLastA l key).map f
        = lookupLastA (l.map (fun p => (p.1, f p.2))) key := by
  intro l
  induction l with
  | nil => rfl
  | cons p rest ih =>
    rcases p with ⟨k, v⟩
    rcases hlast : lookupLastA rest key with _ | r
    · have hmap : lookupLastA (rest.map (fun p => (p.1, f p.2))) key = none := by
        rw [← ih, hlast]
        rfl
      simp only [lookupLastA, hlast, List.map_cons, hmap]
      by_cases hk : k = key <;> simp [hk]
    · have hmap : lookupLastA (rest.map (fun p => (p.1, f p.2))) key
          = some (f r) := by
        rw [← ih, hlast]
        rfl
      simp [lookupLastA, hlast, hmap]

theorem mkDiscoveredInfo_core (now now2 : Nat) (wsDir a p : String) :
    (mkDiscoveredInfo now wsDir a p).core
      = (mkDiscoveredInfo now2 wsDir a p).core := rfl

theorem areaPairs_core_map (now now2 : Nat) (wsDir areaName : String) :
    ∀ children : List FsEntry,
      (areaPairs now wsDir areaName children).map
          (fun p => (p.1, p.2.core))
        = (areaPairs now2 wsDir areaName children).map
          (fun p => (p.1, p.2.core)) := by
  intro children
  induction children with
  | nil => rfl
  | cons pe rest ih =>
    by_cases hdir : (pe.isDir && !isHiddenName pe.name) = true <;>
      simp [areaPairs, hdir, ih, mkDiscoveredInfo_core now now2]

theorem discoveredPairs_core_map (now now2 : Nat) (wsDir : String) :
    ∀ es : List FsEntry,
      (discoveredPairs now wsDir es).map (fun p => (p.1, p.2.core))
        = (discoveredPairs now2 wsDir es).map (fun p => (p.1, p.2.core)) := by
  intro es
  induction es with
  | nil => rfl
  | cons ae rest ih =>
    by_cases hdir : (ae.isDir && !isHiddenName ae.name) = true <;>
      simp [discoveredPairs, hdir, ih, areaPairs_core_map now now2 wsDir ae.name]

/-- C8 (amended). Running discovery twice on an unchanged workspace yields a
projects map binding the same project ids, each to a record equal to the
first run's in every field except the created_at / last_activity
timestamps, which carry the clock of the run that created the record. -/
theorem discovery_idempotent_up_to_timestamps (now now2 : Nat)
    (wsDir : String) (ws : Option (List FsEntry)) (st : DiscoveryState)
    (key : String) :
    (lookupA (discover_projects now2 wsDir ws
        (discover_projects now wsDir ws st)).projects key).map
        ProjectInfoV.core
      = (lookupA (discover_projects now wsDir ws st).projects key).map
        ProjectInfoV.core := by
  rcases ws with _ | es
  · rfl
  · simp only [discover_projects, discoverAreas_projects, lookupA_foldIns]
    have hcore : (lookupLastA (discoveredPairs now2 wsDir es) key).map
        ProjectInfoV.core
        = (lookupLastA (discoveredPairs now wsDir es) key).map
          ProjectInfoV.core := by
      rw [lookupLastA_map, lookupLastA_map,
        discoveredPairs_core_map now2 now wsDir es]
    rcases hlast2 : lookupLastA (discoveredPairs now2 wsDir es) key with _ | r2
    · rcases hlast : lookupLastA (discoveredPairs now wsDir es) key with _ | r
      · simp [hlast2, hlast]
      · simp [hlast2, hlast] at hcore
    · rcases hlast : lookupLastA (discoveredPairs now wsDir es) key with _ | r
      · simp [hlast2, hlast] at hcore
      · simp only [hlast2, hlast, Option.map_some] at hcore ⊢
        simp [hcore]

/-- A workspace holding one working area with one project. -/
def wsOneProject : List FsEntry :=
  [FsEntry.mk "team1" true [FsEntry.mk "svc" true []]]

/-- C8 counterexample: running discovery twice (at clock 0 then clock 1) on
the unchanged one-project workspace does not yield an identical ProjectInfo
map — the second run rebuilds the entry with fresh timestamps. -/
theorem discovery_twice_not_identical :
    ¬ ((discover_projects 1 "ws" (some wsOneProject)
          (discover_projects 0 "ws" (some wsOneProject) ⟨[], []⟩)).projects
        = (discover_projects 0 "ws" (some wsOneProject) ⟨[], []⟩).projects) := by
  decide

/-! ## Orchestrator command handling over shared ProjectInfo records
(src/src/agent/orchestrator.py).  Python binds the same ProjectInfo object
in `self._projects` and in its working area's map; the embedding makes the
sharing explicit: records live in a heap (addresses are indices) and both
maps bind addresses. -/

/-- The `.value` string of each `ProjectState` member. -/
def ProjectState.value : ProjectState → String
  | .pending => "pending"
  | .running => "running"
  | .idle => "idle"
  | .error => "error"
  | .stopped => "stopped"

/-- A `WorkingArea` whose per-name map binds heap addresses. -/
structure WorkingAreaH where
  name : String
  path : String
  projects : List (String × Nat)

/-- The orchestrator state: the workspace root, the heap of `ProjectInfo`
records, and the two maps binding addresses. -/
structure OrchState where
  wsDir : String
  heap : List ProjectInfoV
  workingAreas : List (String × WorkingAreaH)
  projects : List (String × Nat)

/-- In-place update of the record at a heap address (a Python attribute
assignment through either alias); out-of-range addresses leave the heap
unchanged. -/
def heapModify (heap : List ProjectInfoV) (addr : Nat)
    (f : ProjectInfoV → ProjectInfoV) : List ProjectInfoV :=
  match heap.get? addr with
  | some p => heap.set addr (f p)
  | none => heap

/-- In-place update of the value bound to a key, when present. -/
def updateA {α : Type} (k : String) (f : α → α) :
    List (String × α) → List (String × α)
  | [] => []
  | (k2, v) :: rest =>
    if k2 = k then (k2, f v) :: rest else (k2, v) :: updateA k f rest

/-- The inner discovery loop over one area's entries, allocating each
visible project directory's record on the heap and binding its address in
the fresh area's map and in the projects map. -/
def scanAreaH (now : Nat) (wsDir areaName : String) :
    List FsEntry
      → List ProjectInfoV × WorkingAreaH × List (String × Nat)
      → List ProjectInfoV × WorkingAreaH × List (String × Nat)
  | [], acc => acc
  | pe :: rest, acc =>
    if pe.isDir && !isHiddenName pe.name then
      let addr := acc.1.length
      let info := mkDiscoveredInfo now wsDir areaName pe.name
      scanAreaH now wsDir areaName rest
        (acc.1 ++ [info],
         { acc.2.1 with projects := insertA pe.name addr acc.2.1.projects },
         insertA (areaName ++ "/" ++ pe.name) addr acc.2.2)
    else scanAreaH now wsDir areaName rest acc

/-- The outer discovery loop over the workspace's entries. -/
def discoverAreasH (now : Nat) :
    List FsEntry → OrchState → OrchState
  | [], st => st
  | ae :: rest, st =>
    if ae.isDir && !isHiddenName ae.name then
      let scanned := scanAreaH now st.wsDir ae.name ae.children
        (st.heap,
         { name := ae.name, path := st.wsDir ++ "/" ++ ae.name, projects := [] },
         st.projects)
      discoverAreasH now rest
        { st with heap := scanned.1,
                  workingAreas := insertA ae.name scanned.2.1 st.workingAreas,
                  projects := scanned.2.2 }
    else discoverAreasH now rest st

/-- `_discover_projects` over the heap state. -/
def discoverH (now : Nat) (ws : Option (List FsEntry)) (st : OrchState) :
    OrchState :=
  match ws with
  | none => st
  | some entries => discoverAreasH now entries st

/-- The orchestrator state after `initialize()` on a fresh orchestrator:
empty maps, then discovery. -/
def initOrch (wsDir : String) (now : Nat) (ws : Option (List FsEntry)) :
    OrchState :=
  discoverH now ws { wsDir := wsDir, heap := [], workingAreas := [], projects := [] }

/-- One routed orchestrator command, with the external inputs each handler
consumes (clock readings, generated task id, whether the target directory
already exists, whether the worker start succeeds). -/
inductive OrchCmd where
  | listProjects
  | createProject (workingArea : Option String) (name : Option String)
      (dirExists : Bool) (now : Nat)
  | assignTask (projectId : Option String) (prompt : Option String)
      (taskId : String) (startOk : Bool) (now : Nat)
  | getProjectStatus (projectId : Option String)
  | stopProject (projectId : Option String)

/-- `_handle_list_projects`: a read-only report of every registered
project (timestamps rendered as numbers). -/
def handleListProjects (st : OrchState) : List (String × Json) :=
  [("success", .bool true),
   ("projects", .arr (st.projects.filterMap (fun p =>
     (st.heap.get? p.2).map (fun info => Json.obj
       [("project_id", .str info.projectId),
        ("name", .str info.name),
        ("working_area", .str info.workingArea),
        ("state", .str info.state.value),
        ("current_task", optStrToJson info.currentTask),
        ("last_activity", .num info.lastActivity)]))))]

/-- `_handle_create_project`: reject a missing name; register the working
area when new (even when the project itself is then rejected because its
directory exists); otherwise allocate the record and bind the same address
in both maps. -/
def handleCreateProject (st : OrchState) (workingArea : Option String)
    (name : Option String) (dirExists : Bool) (now : Nat) :
    OrchState × List (String × Json) :=
  let wa := workingArea.getD "default"
  match name with
  | none => (st, [("success", .bool false), ("error", .str "Project name required")])
  | some n =>
    let freshWA : WorkingAreaH :=
      { name := wa, path := st.wsDir ++ "/" ++ wa, projects := [] }
    let st1 := if (lookupA st.workingAreas wa).isNone then
        { st with workingAreas := insertA wa freshWA st.workingAreas }
      else st
    if dirExists then
      (st1, [("success", .bool false),
             ("error", .str ("Project " ++ n ++ " already exists"))])
    else
      let addr := st1.heap.length
      let info := mkDiscoveredInfo now st.wsDir wa n
      ({ st1 with heap := st1.heap ++ [info],
                  projects := insertA (wa ++ "/" ++ n) addr st1.projects,
                  workingAreas := updateA wa
                    (fun w => { w with projects := insertA n addr w.projects })
                    st1.workingAreas },
       [("success", .bool true), ("project_id", .str (wa ++ "/" ++ n)),
        ("path", .str (st.wsDir ++ "/" ++ wa ++ "/" ++ n))])

/-- `_handle_assign_task` (with `_start_project_agent`): reject missing
arguments or an unknown project; lazily attach and start the worker (a
start failure propagates to the command loop, aborting after the worker
reference was attached); then record the task id and activity time on the
shared record and reply with the task id.  All mutations go through the
heap. -/
def handleAssignTask (st : OrchState) (projectId prompt : Option String)
    (taskId : String) (startOk : Bool) (now : Nat) :
    OrchState × Option (List (String × Json)) :=
  match projectId, prompt with
  | some pid, some p =>
    if p = "" then
      (st, some [("success", .bool false),
                 ("error", .str "project_id and prompt required")])
    else
      match lookupA st.projects pid with
      | none =>
        (st, some [("success", .bool false),
                   ("error", .str ("Project not found: " ++ pid))])
      | some addr =>
        let needStart := match st.heap.get? addr with
          | some info => info.agent.isNone
          | none => false
        let heap1 := if needStart then
            heapModify st.heap addr (fun info => { info with agent := some () })
          else st.heap
        if needStart && !startOk then
          ({ st with heap := heap1 }, none)
        else
          let heap2 := if needStart then
              heapModify heap1 addr (fun info => { info with state := .running })
            else heap1
          let heap3 := heapModify heap2 addr (fun info =>
            { info with currentTask := some taskId, lastActivity := now })
          ({ st with heap := heap3 },
           some [("success", .bool true), ("task_id", .str taskId),
                 ("project_id", .str pid)])
  | _, _ =>
    (st, some [("success", .bool false),
               ("error", .str "project_id and prompt required")])

/-- `_handle_get_project_status`: a read-only report of one project. -/
def handleGetProjectStatus (st : OrchState) (projectId : Option String) :
    List (String × Json) :=
  match projectId.bind (lookupA st.projects) with
  | none => [("success", .bool false), ("error", .str "Project not found")]
  | some addr =>
    match st.heap.get? addr with
    | none => [("success", .bool false), ("error", .str "Project not found")]
    | some info =>
      [("success", .bool true), ("project_id", .str info.projectId),
       ("name", .str info.name), ("state", .str info.state.value),
       ("current_task", optStrToJson info.currentTask),
       ("has_agent", .bool (info.agent ≠ none))]

/-- `_handle_stop_project`: stop and detach the worker on the shared
record. -/
def handleStopProject (st : OrchState) (projectId : Option String) :
    OrchState × List (String × Json) :=
  match projectId.bind (lookupA st.projects) with
  | none => (st, [("success", .bool false), ("error", .str "Project not found")])
  | some addr =>
    let heap1 := match st.heap.get? addr with
      | some info =>
        if info.agent ≠ none then
          heapModify st.heap addr (fun i =>
            { i with agent := none, state := .stopped })
        else st.heap
      | none => st.heap
    ({ st with heap := heap1 },
     [("success", .bool true),
      ("project_id", .str (projectId.getD ""))])

/-- One routed command step of the orchestrator. -/
def orchStep (st : OrchState) : OrchCmd → OrchState
  | .listProjects => st
  | .createProject wa n de now => (handleCreateProject st wa n de now).1
  | .assignTask pid p tid ok now => (handleAssignTask st pid p tid ok now).1
  | .getProjectStatus _ => st
  | .stopProject pid => (handleStopProject st pid).1

/-- The orchestrator state after initialization and a command sequence. -/
def runOrch (wsDir : String) (now : Nat) (ws : Option (List FsEntry))
    (cmds : List OrchCmd) : OrchState :=
  cmds.foldl orchStep (initOrch wsDir now ws)

/-- The cross-map consistency invariant: every bound project id decomposes
as area/name with the working-area map binding that area, whose per-area
map binds the name to the same heap address, and the address points into
the heap. -/
def OrchInv (st : OrchState) : Prop :=
  ∀ pid addr, lookupA st.projects pid = some addr →
    addr < st.heap.length ∧
    ∃ area name wa, pid = area ++ "/" ++ name
      ∧ lookupA st.workingAreas area = some wa
      ∧ lookupA wa.projects name = some addr

/-- The names of the visible area directories of a workspace listing. -/
def visibleAreaNames (es : List FsEntry) : List String :=
  (es.filter (fun ae => ae.isDir && !isHiddenName ae.name)).map FsEntry.name

/-- The Nodup side condition a real directory listing satisfies. -/
def wsWellFormed : Option (List FsEntry) → Prop
  | none => True
  | some es => (visibleAreaNames es).Nodup

theorem lookupA_updateA {α : Type} (k : String) (f : α → α) (key : String) :
    ∀ m : List (String × α),
      lookupA (updateA k f m) key
        = if k = key then (lookupA m key).map f else lookupA m key := by
  intro m
  induction m with
  | nil => by_cases hk : k = key <;> simp [updateA, lookupA, hk]
  | cons p rest ih =>
    rcases p with ⟨k2, v⟩
    by_cases h2 : k2 = k
    · subst h2
      by_cases hkey : k2 = key
      · subst hkey
        simp [updateA, lookupA]
      · simp [updateA, lookupA, hkey, ih]
    · by_cases hkey : k2 = key
      · subst hkey
        have hne : ¬ (k = k2) := fun hcontra => h2 hcontra.symm
        simp [updateA, lookupA, h2, hne]
      · simp [updateA, lookupA, h2, hkey, ih]

theorem heapModify_length (heap : List ProjectInfoV) (addr : Nat)
    (f : ProjectInfoV → ProjectInfoV) :
    (heapModify heap addr f).length = heap.length := by
  unfold heapModify
  rcases h : heap.get? addr with _ | p <;> simp

theorem OrchInv_heap_swap (st : OrchState) (heap2 : List ProjectInfoV)
    (hlen : heap2.length = st.heap.length) (hinv : OrchInv st) :
    OrchInv { st with heap := heap2 } := by
  intro pid addr hlook
  obtain ⟨hbound, hwit⟩ := hinv pid addr hlook
  exact ⟨by simpa [hlen] using hbound, hwit⟩

theorem OrchInv_insert_fresh_area (st : OrchState) (k : String)
    (w : WorkingAreaH) (hfresh : lookupA st.workingAreas k = none)
    (hinv : OrchInv st) :
    OrchInv { st with workingAreas := insertA k w st.workingAreas } := by
  intro pid addr hlook
  obtain ⟨hbound, area, name, wa0, hpid, harea, hname⟩ := hinv pid addr hlook
  refine ⟨hbound, area, name, wa0, hpid, ?_, hname⟩
  rw [lookupA_insertA]
  by_cases hk : k = area
  · subst hk
    rw [hfresh] at harea
    exact absurd harea (by simp)
  · simp [hk, harea]

theorem scanAreaH_inv (now : Nat) (wsDir areaName : String)
    (R : String → Nat → Prop) :
    ∀ (children : List FsEntry) (heap : List ProjectInfoV)
      (wa : WorkingAreaH) (projs : List (String × Nat)),
      (∀ pid addr, lookupA projs pid = some addr →
        addr < heap.length ∧
          ((∃ n, pid = areaName ++ "/" ++ n
              ∧ lookupA wa.projects n = some addr)
            ∨ R pid addr)) →
      ∀ pid addr,
        lookupA (scanAreaH now wsDir areaName children (heap, wa, projs)).2.2
            pid = some addr →
        addr < (scanAreaH now wsDir areaName children (heap, wa, projs)).1.length
          ∧ ((∃ n, pid = areaName ++ "/" ++ n
              ∧ lookupA (scanAreaH now wsDir areaName children
                  (heap, wa, projs)).2.1.projects n = some addr)
            ∨ R pid addr) := by
  intro children
  induction children with
  | nil => intro heap wa projs hpre; exact hpre
  | cons pe rest ih =>
    intro heap wa projs hpre
    by_cases hdir : (pe.isDir && !isHiddenName pe.name) = true
    · simp only [scanAreaH, hdir, if_true]
      apply ih
      intro pid addr hlook
      rw [lookupA_insertA] at hlook
      by_cases hpid : areaName ++ "/" ++ pe.name = pid
      · simp only [hpid, if_true] at hlook
        obtain rfl : heap.length = addr := by
          injection hlook with h
        refine ⟨by simp, Or.inl ⟨pe.name, hpid.symm, ?_⟩⟩
        simp [lookupA_insertA]
      · simp only [hpid, if_false] at hlook
        obtain ⟨hbound, hwit⟩ := hpre pid addr hlook
        refine ⟨by simp; omega, ?_⟩
        rcases hwit with ⟨n, hn, hlookn⟩ | hR
        · refine Or.inl ⟨n, hn, ?_⟩
          rw [lookupA_insertA]
          by_cases hname : pe.name = n
          · subst hname
            exact absurd (hn.symm) hpid
          · simp [hname, hlookn]
        · exact Or.inr hR
    · simp only [scanAreaH, hdir, if_false]
      exact ih heap wa projs hpre

theorem visibleAreaNames_cons_dir (ae : FsEntry) (rest : List FsEntry)
    (hdir : (ae.isDir && !isHiddenName ae.name) = true) :
    visibleAreaNames (ae :: rest) = ae.name :: visibleAreaNames rest := by
  simp [visibleAreaNames, List.filter, hdir]

theorem visibleAreaNames_cons_skip (ae : FsEntry) (rest : List FsEntry)
    (hdir : ¬ (ae.isDir && !isHiddenName ae.name) = true) :
    visibleAreaNames (ae :: rest) = visibleAreaNames rest := by
  simp only [Bool.not_eq_true] at hdir
  simp [visibleAreaNames, List.filter, hdir]

theorem discoverAreasH_inv (now : Nat) :
    ∀ (es : List FsEntry) (st : OrchState),
      OrchInv st →
      (∀ a, a ∈ visibleAreaNames es → lookupA st.workingAreas a = none) →
      (visibleAreaNames es).Nodup →
      OrchInv (discoverAreasH now es st) := by
  intro es
  induction es with
  | nil => intro st hinv _ _; exact hinv
  | cons ae rest ih =>
    intro st hinv hfresh hnodup
    by_cases hdir : (ae.isDir && !isHiddenName ae.name) = true
    · rw [visibleAreaNames_cons_dir ae rest hdir] at hfresh hnodup
      have hfreshhd : lookupA st.workingAreas ae.name = none :=
        hfresh ae.name (by simp)
      have hnotin : ae.name ∉ visibleAreaNames rest := by
        simp [List.nodup_cons] at hnodup
        exact hnodup.1
      simp only [discoverAreasH, hdir, if_true]
      apply ih
      · intro pid addr hlook
        have hscan := scanAreaH_inv now st.wsDir ae.name
          (fun pid2 addr2 => ∃ area name wa0, pid2 = area ++ "/" ++ name
            ∧ lookupA st.workingAreas area = some wa0
            ∧ lookupA wa0.projects name = some addr2)
          ae.children st.heap
          { name := ae.name, path := st.wsDir ++ "/" ++ ae.name, projects := [] }
          st.projects
          (by
            intro pid2 addr2 hl2
            obtain ⟨hb2, area, name, wa0, hpid2, harea2, hname2⟩ :=
              hinv pid2 addr2 hl2
            exact ⟨hb2, Or.inr ⟨area, name, wa0, hpid2, harea2, hname2⟩⟩)
          pid addr hlook
        obtain ⟨hbound, hwit⟩ := hscan
        refine ⟨hbound, ?_⟩
        rcases hwit with ⟨n, hn, hlookn⟩ | ⟨area, name, wa0, hpid, harea, hname⟩
        · refine ⟨ae.name, n, _, hn, ?_, hlookn⟩
          rw [lookupA_insertA]
          simp
        · refine ⟨area, name, wa0, hpid, ?_, hname⟩
          rw [lookupA_insertA]
          by_cases hk : ae.name = area
          · subst hk
            rw [hfreshhd] at harea
            exact absurd harea (by simp)
          · simp [hk, harea]
      · intro a ha
        have hne : a ≠ ae.name := by
          intro hcontra
          subst hcontra
          exact hnotin ha
        simp only
        rw [lookupA_insertA]
        have hne2 : ¬ (ae.name = a) := fun hcontra => hne hcontra.symm
        simp only [hne2, if_false]
        exact hfresh a (by simp [ha])
      · simp [List.nodup_cons] at hnodup
        exact hnodup.2
    · rw [visibleAreaNames_cons_skip ae rest hdir] at hfresh hnodup
      simp only [discoverAreasH, hdir, if_false]
      exact ih st hinv hfresh hnodup

theorem OrchInv_register_project (st : OrchState) (wa n : String)
    (info : ProjectInfoV) (w1 : WorkingAreaH)
    (hw1 : lookupA st.workingAreas wa = some w1)
    (hinv : OrchInv st) :
    OrchInv
      { st with
          heap := st.heap ++ [info],
          projects := insertA (wa ++ "/" ++ n) st.heap.length st.projects,
          workingAreas := updateA wa
            (fun w => { w with projects := insertA n st.heap.length w.projects })
            st.workingAreas } := by
  intro pid addr hlook
  simp only [lookupA_insertA] at hlook
  by_cases hpid : wa ++ "/" ++ n = pid
  · simp only [hpid, if_true] at hlook
    have haddr : st.heap.length = addr := by injection hlook
    subst haddr
    refine ⟨by simp, wa, n,
      { w1 with projects := insertA n st.heap.length w1.projects },
      hpid.symm, ?_, ?_⟩
    · simp only
      rw [lookupA_updateA]
      simp [hw1]
    · simp only
      rw [lookupA_insertA]
      simp
  · simp only [hpid, if_false] at hlook
    obtain ⟨hbound, area, nm, wa0, hp, ha, hn⟩ := hinv pid addr hlook
    refine ⟨by simp; omega, area, nm, ?_⟩
    simp only
    rw [lookupA_updateA]
    by_cases hk : wa = area
    · subst hk
      simp only [if_true]
      rw [ha]
      refine ⟨_, hp, rfl, ?_⟩
      simp only [Option.map_some]
      rw [lookupA_insertA]
      by_cases hnm : n = nm
      · subst hnm
        exact absurd hp.symm hpid
      · simp [hnm, hn]
    · simp only [hk, if_false]
      exact ⟨wa0, hp, ha, hn⟩

theorem handleCreateProject_inv (st : OrchState) (workingArea : Option String)
    (name : Option String) (dirExists : Bool) (now : Nat)
    (hinv : OrchInv st) :
    OrchInv (handleCreateProject st workingArea name dirExists now).1 := by
  rcases name with _ | n
  · exact hinv
  · simp only [handleCreateProject]
    set wa := workingArea.getD "default" with hwa
    by_cases habs : (lookupA st.workingAreas wa).isNone
    · have hfresh : lookupA st.workingAreas wa = none := by
        rcases h : lookupA st.workingAreas wa with _ | w
        · rfl
        · rw [h] at habs
          simp at habs
      have hinv1 := OrchInv_insert_fresh_area st wa
        { name := wa, path := st.wsDir ++ "/" ++ wa, projects := [] }
        hfresh hinv
      have hw1 : lookupA (insertA wa
          { name := wa, path := st.wsDir ++ "/" ++ wa, projects := [] }
          st.workingAreas) wa
          = some { name := wa, path := st.wsDir ++ "/" ++ wa, projects := [] } := by
        rw [lookupA_insertA]
        simp
      by_cases hde : dirExists = true
      · simp only [habs, if_true, hde]
        exact hinv1
      · simp only [Bool.not_eq_true] at hde
        simp only [habs, if_true, hde, Bool.false_eq_true, if_false]
        exact OrchInv_register_project _ wa n _ _ hw1 hinv1
    · have hw1 : ∃ w, lookupA st.workingAreas wa = some w := by
        rcases h : lookupA st.workingAreas wa with _ | w
        · rw [h] at habs
          simp at habs
        · exact ⟨w, rfl⟩
      obtain ⟨w1, hw1⟩ := hw1
      by_cases hde : dirExists = true
      · simp only [habs, if_false, hde]
        exact hinv
      · simp only [Bool.not_eq_true] at hde
        simp only [habs, if_false, hde, Bool.false_eq_true]
        exact OrchInv_register_project st wa n _ _ hw1 hinv

theorem handleAssignTask_inv (st : OrchState) (projectId prompt : Option String)
    (taskId : String) (startOk : Bool) (now : Nat) (hinv : OrchInv st) :
    OrchInv (handleAssignTask st projectId prompt taskId startOk now).1 := by
  rcases projectId with _ | pid
  · exact hinv
  rcases prompt with _ | p
  · exact hinv
  simp only [handleAssignTask]
  by_cases hp : p = ""
  · simp only [hp, if_true]
    exact hinv
  simp only [hp, if_false]
  rcases hlook : lookupA st.projects pid with _ | addr
  · exact hinv
  simp only
  rcases hget : st.heap.get? addr with _ | info
  · simp only [hget, Bool.false_and, Bool.false_eq_true, if_false]
    apply OrchInv_heap_swap _ _ _ hinv
    exact heapModify_length st.heap addr _
  · by_cases hag : info.agent.isNone = true
    · simp only [hget, hag, Bool.true_and, if_true]
      by_cases hok : startOk = true
      · simp only [hok, Bool.not_true, Bool.false_eq_true, if_false]
        apply OrchInv_heap_swap _ _ _ hinv
        simp [heapModify_length]
      · simp only [Bool.not_eq_true] at hok
        simp only [hok, Bool.not_false, if_true]
        apply OrchInv_heap_swap _ _ _ hinv
        exact heapModify_length st.heap addr _
    · simp only [Bool.not_eq_true] at hag
      simp only [hget, hag, Bool.false_and, Bool.false_eq_true, if_false]
      apply OrchInv_heap_swap _ _ _ hinv
      exact heapModify_length st.heap addr _

theorem handleStopProject_inv (st : OrchState) (projectId : Option String)
    (hinv : OrchInv st) :
    OrchInv (handleStopProject st projectId).1 := by
  simp only [handleStopProject]
  rcases hlook : projectId.bind (lookupA st.projects) with _ | addr
  · exact hinv
  · simp only
    apply OrchInv_heap_swap _ _ _ hinv
    rcases hget : st.heap.get? addr with _ | info
    · simp [hget]
    · by_cases hag : info.agent ≠ none
      · simp [hget, hag, heapModify_length]
      · simp [hget, hag]

theorem orchStep_inv (st : OrchState) (c : OrchCmd) (hinv : OrchInv st) :
    OrchInv (orchStep st c) := by
  rcases c with _ | ⟨wa, n, de, now⟩ | ⟨pid, p, tid, ok, now⟩ | pid | pid
  · exact hinv
  · exact handleCreateProject_inv st wa n de now hinv
  · exact handleAssignTask_inv st pid p tid ok now hinv
  · exact hinv
  · exact handleStopProject_inv st pid hinv

theorem foldl_orchStep_inv (cmds : List OrchCmd) :
    ∀ st : OrchState, OrchInv st → OrchInv (cmds.foldl orchStep st) := by
  induction cmds with
  | nil => intro st h; exact h
  | cons c rest ih =>
    intro st h
    exact ih (orchStep st c) (orchStep_inv st c h)

/-- C10. Cross-map consistency of the orchestrator: after initialization
(discovery over a well-formed workspace listing) and any sequence of
handled commands, every project id area/name bound in the projects map has
its working area registered, with the per-area map binding the name to the
same heap address — the same `ProjectInfo` record — which points into the
heap. -/
theorem orchestrator_cross_map_consistent (wsDir : String) (now : Nat)
    (ws : Option (List FsEntry)) (cmds : List OrchCmd)
    (hws : wsWellFormed ws) :
    OrchInv (runOrch wsDir now ws cmds) := by
  apply foldl_orchStep_inv
  rcases ws with _ | es
  · intro pid addr hlook
    simp [initOrch, discoverH, lookupA] at hlook
  · apply discoverAreasH_inv
    · intro pid addr hlook
      simp [lookupA] at hlook
    · intro a _
      rfl
    · exact hws

/-- C10 witness: the invariant holds for a concrete one-project workspace
after creating a project, assigning it a task and stopping it. -/
theorem orchestrator_cross_map_consistent_witness :
    OrchInv (runOrch "ws" 0 (some wsOneProject)
      [.createProject (some "team2") (some "api") false 1,
       .assignTask (some "team2/api") (some "do it") "t9" true 2,
       .getProjectStatus (some "team2/api"),
       .stopProject (some "team2/api"),
       .listProjects]) :=
  orchestrator_cross_map_consistent "ws" 0 (some wsOneProject)
    [.createProject (some "team2") (some "api") false 1,
     .assignTask (some "team2/api") (some "do it") "t9" true 2,
     .getProjectStatus (some "team2/api"),
     .stopProject (some "team2/api"),
     .listProjects]
    (by
      show (visibleAreaNames wsOneProject).Nodup
      decide)
